import Mathlib

/-!
Verification of the RFC domain model (services + in-memory storage).

The TypeScript source is shallowly embedded: string ids stay `String`,
document text is modelled as `List Char` (so the JavaScript string
operations `includes`, `indexOf`, `split`, `join`, `substring` can be
given faithful executable definitions), timestamps (`new Date()`) become
explicit `Nat` parameters `now`, and `randomUUID()` becomes an explicit
`newId : String` parameter.  JavaScript `Map`s and plain objects are
modelled as insertion-ordered association lists.  Methods that can throw
return `Except String α × Storage`; the returned storage reflects exactly
the mutations performed before a throw (JavaScript exceptions do not roll
anything back).
-/

/-- Lookup in an insertion-ordered association list (JS `Map.get` /
object indexing); `none` models `undefined`. -/
def mapGet {α : Type} (m : List (String × α)) (k : String) : Option α :=
  match m with
  | [] => none
  | (k1, v) :: rest => if k1 = k then some v else mapGet rest k

/-- Update in an insertion-ordered association list (JS `Map.set` /
object assignment): an existing key keeps its position, a new key is
appended at the end. -/
def mapSet {α : Type} (m : List (String × α)) (k : String) (v : α) : List (String × α) :=
  match m with
  | [] => [(k, v)]
  | (k1, v1) :: rest => if k1 = k then (k, v) :: rest else (k1, v1) :: mapSet rest k v

/-- JS `Set.add` on a list of ids kept in insertion order. -/
def setAdd (l : List String) (x : String) : List String :=
  if x ∈ l then l else l ++ [x]

/-- Models the JS test `!s || s.trim().length === 0`: a string is blank
iff every character is whitespace (the empty string included). -/
def isBlank (s : String) : Bool :=
  s.toList.all Char.isWhitespace

/-- Models `content.indexOf(pat)` on JS strings: index of the leftmost
occurrence, `none` for `-1`.  `s.indexOf("")` is `0` in JS, matched here
because the empty list is a prefix of everything. -/
def jsIndexOf (s pat : List Char) : Option Nat :=
  if pat.isPrefixOf s then some 0
  else
    match s with
    | [] => none
    | _ :: rest => (jsIndexOf rest pat).map (fun n => n + 1)

/-- Models `content.includes(pat)` on JS strings. -/
def jsIncludes (s pat : List Char) : Bool :=
  (jsIndexOf s pat).isSome

/-- Recursion core of JS `String.split` for a non-empty separator:
scan left to right, cutting at each (non-overlapping) occurrence. -/
def jsSplitGo (sep : List Char) : List Char → List (List Char)
  | [] => [[]]
  | c :: rest =>
    if sep.isPrefixOf (c :: rest) then
      [] :: jsSplitGo sep (rest.drop (sep.length - 1))
    else
      match jsSplitGo sep rest with
      | [] => [[c]]
      | h :: t => (c :: h) :: t
termination_by l => l.length
decreasing_by
  · simp only [List.length_drop, List.length_cons]
    omega
  · simp only [List.length_cons]
    omega

/-- Models JS `s.split(sep)`: an empty separator splits into single
characters (`"".split("")` is `[]`), otherwise cut at occurrences. -/
def jsSplit (s sep : List Char) : List (List Char) :=
  if sep = [] then s.map (fun c => [c])
  else jsSplitGo sep s

/-- Models JS `parts.join(sep)`. -/
def jsJoin (sep : List Char) : List (List Char) → List Char
  | [] => []
  | [x] => x
  | x :: y :: t => x ++ sep ++ jsJoin sep (y :: t)

/-- Written from the specification's words, not from the code: replace
every (leftmost-first, non-overlapping) occurrence of `old` by `new` in
one left-to-right scan.  Termination requires `old` to be non-empty,
which is why the occurrence-replacement claims are stated for non-empty
search strings. -/
def replaceAllOcc (old new : List Char) : List Char → List Char
  | [] => []
  | c :: rest =>
    if old.isPrefixOf (c :: rest) then
      new ++ replaceAllOcc old new (rest.drop (old.length - 1))
    else
      c :: replaceAllOcc old new rest
termination_by l => l.length
decreasing_by
  · simp only [List.length_drop, List.length_cons]
    omega
  · simp only [List.length_cons]
    omega

/-! ## Enumerations (src/src/domain/types.ts) -/

inductive RFCStatus
  | draft
  | in_review
  | approved
  | rejected
  | superseded
deriving DecidableEq, Repr

/-- String value of the TS enum member, used in error messages. -/
def RFCStatus.str : RFCStatus → String
  | .draft => "draft"
  | .in_review => "in_review"
  | .approved => "approved"
  | .rejected => "rejected"
  | .superseded => "superseded"

inductive CommentStatus
  | open_
  | resolved
  | dismissed
deriving DecidableEq, Repr

inductive CommentType
  | inline
  | document_level
deriving DecidableEq, Repr

inductive ReviewStatus
  | pending
  | in_progress
  | completed
deriving DecidableEq, Repr

inductive AgentType
  | lead
  | frontend
  | backend
  | security
  | database
  | devops
deriving DecidableEq, Repr

/-! ## Entities (src/src/domain/types.ts) -/

structure Capabilities where
  canEdit : Bool
  canComment : Bool
  canApprove : Bool
deriving DecidableEq, Repr

structure Agent where
  id : String
  type : AgentType
  name : String
  capabilities : Capabilities
  createdAt : Nat
deriving DecidableEq, Repr

structure RFC where
  id : String
  version : Nat
  status : RFCStatus
  title : String
  content : List Char
  author : String
  requestingUser : String
  createdAt : Nat
  updatedAt : Nat
  previousVersionId : Option String := none
deriving DecidableEq, Repr

structure TextReference where
  quotedText : List Char
  lineNumber : Option Nat := none
  textSpan : Option (Nat × Nat) := none
deriving DecidableEq, Repr

structure Comment where
  id : String
  rfcId : String
  rfcVersion : Nat
  agentId : String
  agentType : AgentType
  type : CommentType
  content : String
  status : CommentStatus
  textReference : Option TextReference := none
  parentCommentId : Option String := none
  createdAt : Nat
  resolvedAt : Option Nat := none
  resolvedBy : Option String := none
  dismissedAt : Option Nat := none
  dismissedBy : Option String := none
deriving DecidableEq, Repr

structure ReviewRequest where
  id : String
  rfcId : String
  rfcVersion : Nat
  requestedBy : String
  reviewerAgentIds : List String
  reviewStatuses : List (String × ReviewStatus)
  deadline : Option Nat := none
  createdAt : Nat
  completedAt : Option Nat := none
deriving DecidableEq, Repr

/-! ## Parameter objects (src/src/domain/types.ts) -/

structure CreateRFCParams where
  title : String
  content : List Char
  author : String
  requestingUser : String
deriving DecidableEq, Repr

structure AddCommentParams where
  rfcId : String
  agentId : String
  agentType : AgentType
  commentType : CommentType
  content : String
  quotedText : Option (List Char) := none
  lineReference : Option Nat := none
  textSpan : Option (Nat × Nat) := none
deriving DecidableEq, Repr

structure ReplyToCommentParams where
  parentCommentId : String
  agentId : String
  agentType : AgentType
  content : String
deriving DecidableEq, Repr

structure RequestReviewParams where
  rfcId : String
  requestedBy : String
  reviewerAgentIds : List String
  deadline : Option Nat := none
deriving DecidableEq, Repr

structure SubmitReviewParams where
  reviewRequestId : String
  agentId : String
  comments : List Comment
deriving DecidableEq, Repr

structure ReplaceStringParams where
  rfcId : String
  oldText : List Char
  newText : List Char
  replaceAll : Bool := false
deriving DecidableEq, Repr

/-! ## Storage (src/src/domain/storage/in-memory.ts)

The four collections live in one record.  The comment storage's two
read-path indexes (`rfcComments`, `parentChildMap`) serve only the query
methods `getByRFC` / `getByParent` / `getThread`, which no verified
operation reads; the `comments` map itself is the persisted store and is
the part modelled here. -/

structure Storage where
  rfcs : List (String × List RFC)
  latestVersions : List (String × RFC)
  comments : List (String × Comment)
  reviews : List (String × ReviewRequest)
  rfcReviews : List (String × List String)
  agents : List (String × Agent)
deriving DecidableEq, Repr

def Storage.empty : Storage :=
  { rfcs := [], latestVersions := [], comments := [], reviews := [], rfcReviews := [], agents := [] }

def InMemoryRFCStorage.create (s : Storage) (rfc : RFC) : Storage :=
  let versions := (mapGet s.rfcs rfc.id).getD []
  { s with
    rfcs := mapSet s.rfcs rfc.id (versions ++ [rfc]),
    latestVersions := mapSet s.latestVersions rfc.id rfc }

/-- JS `versions.reduce((latest, current) => current.version > latest.version ? current : latest)`;
`none` models the exception `reduce` raises on an empty array (its caller
always passes a non-empty array). -/
def latestOf (versions : List RFC) : Option RFC :=
  match versions with
  | [] => none
  | v :: rest =>
    some (rest.foldl (fun latest current =>
      if current.version > latest.version then current else latest) v)

def InMemoryRFCStorage.update (s : Storage) (rfc : RFC) : Storage :=
  let versions := (mapGet s.rfcs rfc.id).getD []
  let versions1 :=
    match versions.findIdx? (fun v => v.version == rfc.version) with
    | some i => versions.set i rfc
    | none => versions ++ [rfc]
  let latest := (latestOf versions1).getD rfc
  { s with
    rfcs := mapSet s.rfcs rfc.id versions1,
    latestVersions := mapSet s.latestVersions rfc.id latest }

def InMemoryRFCStorage.getById (s : Storage) (id : String) : Option RFC :=
  mapGet s.latestVersions id

def InMemoryRFCStorage.getByVersion (s : Storage) (id : String) (version : Nat) : Option RFC :=
  ((mapGet s.rfcs id).getD []).find? (fun v => v.version == version)

def InMemoryCommentStorage.create (s : Storage) (c : Comment) : Storage :=
  { s with comments := mapSet s.comments c.id c }

def InMemoryCommentStorage.update (s : Storage) (c : Comment) : Storage :=
  { s with comments := mapSet s.comments c.id c }

def InMemoryCommentStorage.getById (s : Storage) (id : String) : Option Comment :=
  mapGet s.comments id

def InMemoryReviewStorage.create (s : Storage) (r : ReviewRequest) : Storage :=
  { s with
    reviews := mapSet s.reviews r.id r,
    rfcReviews := mapSet s.rfcReviews r.rfcId (setAdd ((mapGet s.rfcReviews r.rfcId).getD []) r.id) }

def InMemoryReviewStorage.update (s : Storage) (r : ReviewRequest) : Storage :=
  { s with reviews := mapSet s.reviews r.id r }

def InMemoryReviewStorage.getById (s : Storage) (id : String) : Option ReviewRequest :=
  mapGet s.reviews id

/-- Insertion step of the `sort((a, b) => b.createdAt - a.createdAt)`
model: newest first. -/
def insertDesc (r : ReviewRequest) : List ReviewRequest → List ReviewRequest
  | [] => [r]
  | x :: xs => if x.createdAt < r.createdAt then r :: x :: xs else x :: insertDesc r xs

def sortDesc : List ReviewRequest → List ReviewRequest
  | [] => []
  | x :: xs => insertDesc x (sortDesc xs)

def InMemoryReviewStorage.getByRFC (s : Storage) (rfcId : String) : List ReviewRequest :=
  sortDesc (((mapGet s.rfcReviews rfcId).getD []).filterMap (fun id => mapGet s.reviews id))

def InMemoryReviewStorage.getActiveByRFC (s : Storage) (rfcId : String) : Option ReviewRequest :=
  (InMemoryReviewStorage.getByRFC s rfcId).find? (fun r => !r.completedAt.isSome)

def InMemoryAgentStorage.create (s : Storage) (a : Agent) : Storage :=
  { s with agents := mapSet s.agents a.id a }

def InMemoryAgentStorage.getById (s : Storage) (id : String) : Option Agent :=
  mapGet s.agents id

/-! ## RFCService (src/src/domain/services/review-service.ts) -/

def RFCService.createRFC (s : Storage) (newId : String) (now : Nat) (params : CreateRFCParams) :
    Except String RFC × Storage :=
  if isBlank params.title then (Except.error "RFC title is required", s)
  else if params.content.all Char.isWhitespace then (Except.error "RFC content is required", s)
  else if isBlank params.author then (Except.error "RFC author is required", s)
  else if isBlank params.requestingUser then (Except.error "Requesting user is required", s)
  else
    let rfc : RFC :=
      { id := newId, version := 1, status := RFCStatus.draft, title := params.title,
        content := params.content, author := params.author,
        requestingUser := params.requestingUser, createdAt := now, updatedAt := now }
    (Except.ok rfc, InMemoryRFCStorage.create s rfc)

def RFCService.updateRFCContent (s : Storage) (rfcId : String) (content : List Char) (now : Nat) :
    Except String RFC × Storage :=
  match InMemoryRFCStorage.getById s rfcId with
  | none => (Except.error ("RFC with id " ++ rfcId ++ " not found"), s)
  | some existingRFC =>
    let newVersion : RFC :=
      { existingRFC with
        version := existingRFC.version + 1,
        content := content,
        updatedAt := now,
        previousVersionId := some (existingRFC.id ++ "-v" ++ toString existingRFC.version) }
    (Except.ok newVersion, InMemoryRFCStorage.update s newVersion)

def validTransitions : RFCStatus → List RFCStatus
  | RFCStatus.draft => [RFCStatus.in_review, RFCStatus.rejected]
  | RFCStatus.in_review => [RFCStatus.approved, RFCStatus.rejected, RFCStatus.draft]
  | RFCStatus.approved => [RFCStatus.superseded]
  | RFCStatus.rejected => [RFCStatus.draft]
  | RFCStatus.superseded => []

def RFCService.validateStatusTransition (currentStatus newStatus : RFCStatus) : Bool :=
  (validTransitions currentStatus).contains newStatus

def RFCService.updateRFCStatus (s : Storage) (rfcId : String) (status : RFCStatus) (now : Nat) :
    Except String RFC × Storage :=
  match InMemoryRFCStorage.getById s rfcId with
  | none => (Except.error ("RFC with id " ++ rfcId ++ " not found"), s)
  | some existingRFC =>
    if RFCService.validateStatusTransition existingRFC.status status then
      let updatedRFC : RFC := { existingRFC with status := status, updatedAt := now }
      (Except.ok updatedRFC, InMemoryRFCStorage.update s updatedRFC)
    else
      (Except.error ("Invalid status transition from " ++ existingRFC.status.str ++
        " to " ++ status.str), s)

def RFCService.getRFC (s : Storage) (rfcId : String) : Option RFC :=
  InMemoryRFCStorage.getById s rfcId

def RFCService.getRFCVersion (s : Storage) (rfcId : String) (version : Nat) : Option RFC :=
  InMemoryRFCStorage.getByVersion s rfcId version

def RFCService.validateStringExists (s : Storage) (rfcId : String) (text : List Char) : Bool :=
  match InMemoryRFCStorage.getById s rfcId with
  | none => false
  | some rfc => jsIncludes rfc.content text

def RFCService.replaceString (s : Storage) (params : ReplaceStringParams) (now : Nat) :
    Except String RFC × Storage :=
  match InMemoryRFCStorage.getById s params.rfcId with
  | none => (Except.error ("RFC with id " ++ params.rfcId ++ " not found"), s)
  | some rfc =>
    if RFCService.validateStringExists s params.rfcId params.oldText then
      let newContent :=
        if params.replaceAll then
          jsJoin params.newText (jsSplit rfc.content params.oldText)
        else
          match jsIndexOf rfc.content params.oldText with
          | some index =>
            rfc.content.take index ++ params.newText ++
              rfc.content.drop (index + params.oldText.length)
          | none => rfc.content
      RFCService.updateRFCContent s params.rfcId newContent now
    else
      (Except.error ("String \"" ++ String.mk params.oldText ++ "\" not found in RFC content"), s)

/-! ## AgentService (src/src/domain/services/review-service.ts)

The TS `capabilities?: Partial<...>` argument merges field-wise over the
defaults; the verified claims never exercise a partial override, so the
override is modelled as an optional full record. -/

def AgentService.getDefaultCapabilities : AgentType → Capabilities
  | AgentType.lead => { canEdit := true, canComment := true, canApprove := true }
  | _ => { canEdit := false, canComment := true, canApprove := false }

def AgentService.createAgent (s : Storage) (newId : String) (now : Nat) (type : AgentType)
    (name : String) (capabilities : Option Capabilities) : Except String Agent × Storage :=
  if isBlank name then (Except.error "Agent name is required", s)
  else
    let agent : Agent :=
      { id := newId, type := type, name := name,
        capabilities := capabilities.getD (AgentService.getDefaultCapabilities type),
        createdAt := now }
    (Except.ok agent, InMemoryAgentStorage.create s agent)

/-! ## CommentService (src/src/domain/services/review-service.ts)

`validateAddCommentParams` also rejects a missing `commentType`; in the
typed embedding the field is always present, so that check cannot fire.
The JS falsiness test `!params.quotedText` also trips on the empty
string, modelled by the explicit empty-list case. -/

def CommentService.addComment (s : Storage) (params : AddCommentParams) (newId : String)
    (now : Nat) : Except String Comment × Storage :=
  if isBlank params.rfcId then (Except.error "RFC ID is required", s)
  else if isBlank params.agentId then (Except.error "Agent ID is required", s)
  else if isBlank params.content then (Except.error "Comment content is required", s)
  else
    match InMemoryRFCStorage.getById s params.rfcId with
    | none => (Except.error ("RFC with id " ++ params.rfcId ++ " not found"), s)
    | some rfc =>
      match InMemoryAgentStorage.getById s params.agentId with
      | none => (Except.error ("Agent with id " ++ params.agentId ++ " not found"), s)
      | some agent =>
        if !agent.capabilities.canComment then
          (Except.error ("Agent " ++ params.agentId ++ " does not have permission to comment"), s)
        else
          let trRes : Except String (Option TextReference) :=
            if params.commentType = CommentType.inline then
              match params.quotedText with
              | none => Except.error "Quoted text is required for inline comments"
              | some qt =>
                if qt = [] then Except.error "Quoted text is required for inline comments"
                else if !jsIncludes rfc.content qt then
                  Except.error "Quoted text not found in RFC content"
                else
                  Except.ok (some { quotedText := qt,
                                    lineNumber := params.lineReference,
                                    textSpan := params.textSpan })
            else Except.ok none
          match trRes with
          | Except.error e => (Except.error e, s)
          | Except.ok textReference =>
            let comment : Comment :=
              { id := newId, rfcId := params.rfcId, rfcVersion := rfc.version,
                agentId := params.agentId, agentType := params.agentType,
                type := params.commentType, content := params.content,
                status := CommentStatus.open_, textReference := textReference,
                createdAt := now }
            (Except.ok comment, InMemoryCommentStorage.create s comment)

def CommentService.replyToComment (s : Storage) (params : ReplyToCommentParams)
    (newId : String) (now : Nat) : Except String Comment × Storage :=
  if isBlank params.parentCommentId then (Except.error "Parent comment ID is required", s)
  else if isBlank params.agentId then (Except.error "Agent ID is required", s)
  else if isBlank params.content then (Except.error "Reply content is required", s)
  else
    match InMemoryCommentStorage.getById s params.parentCommentId with
    | none =>
      (Except.error ("Parent comment with id " ++ params.parentCommentId ++ " not found"), s)
    | some parentComment =>
      match InMemoryAgentStorage.getById s params.agentId with
      | none => (Except.error ("Agent with id " ++ params.agentId ++ " not found"), s)
      | some agent =>
        if !agent.capabilities.canComment then
          (Except.error ("Agent " ++ params.agentId ++ " does not have permission to comment"), s)
        else
          let reply : Comment :=
            { id := newId, rfcId := parentComment.rfcId,
              rfcVersion := parentComment.rfcVersion, agentId := params.agentId,
              agentType := params.agentType, type := CommentType.document_level,
              content := params.content, status := CommentStatus.open_,
              parentCommentId := some params.parentCommentId, createdAt := now }
          (Except.ok reply, InMemoryCommentStorage.create s reply)

def commentStatusStr : CommentStatus → String
  | CommentStatus.open_ => "open"
  | CommentStatus.resolved => "resolved"
  | CommentStatus.dismissed => "dismissed"

def CommentService.resolveComment (s : Storage) (commentId resolverId : String) (now : Nat) :
    Except String Comment × Storage :=
  match InMemoryCommentStorage.getById s commentId with
  | none => (Except.error ("Comment with id " ++ commentId ++ " not found"), s)
  | some comment =>
    if comment.status ≠ CommentStatus.open_ then
      (Except.error ("Comment is already " ++ commentStatusStr comment.status), s)
    else
      match InMemoryAgentStorage.getById s resolverId with
      | none => (Except.error ("Agent with id " ++ resolverId ++ " not found"), s)
      | some _ =>
        let resolvedComment : Comment :=
          { comment with
            status := CommentStatus.resolved
            resolvedAt := some now
            resolvedBy := some resolverId }
        (Except.ok resolvedComment, InMemoryCommentStorage.update s resolvedComment)

def CommentService.dismissComment (s : Storage) (commentId dismisserId : String) (now : Nat) :
    Except String Comment × Storage :=
  match InMemoryCommentStorage.getById s commentId with
  | none => (Except.error ("Comment with id " ++ commentId ++ " not found"), s)
  | some comment =>
    if comment.status ≠ CommentStatus.open_ then
      (Except.error ("Comment is already " ++ commentStatusStr comment.status), s)
    else
      match InMemoryAgentStorage.getById s dismisserId with
      | none => (Except.error ("Agent with id " ++ dismisserId ++ " not found"), s)
      | some _ =>
        let dismissedComment : Comment :=
          { comment with
            status := CommentStatus.dismissed
            dismissedAt := some now
            dismissedBy := some dismisserId }
        (Except.ok dismissedComment, InMemoryCommentStorage.update s dismissedComment)

/-! ## ReviewService (src/src/domain/services/review-service.ts) -/

/-- Models `params.deadline && params.deadline <= new Date()` in
`validateRequestParams`. -/
def deadlineNotFuture (deadline : Option Nat) (now : Nat) : Bool :=
  match deadline with
  | some d => d ≤ now
  | none => false

/-- Models `reviewRequest.deadline && new Date() > reviewRequest.deadline`
in `submitReview`. -/
def deadlinePassed (deadline : Option Nat) (now : Nat) : Bool :=
  match deadline with
  | some d => d < now
  | none => false

/-- The reviewer-validation loop of `requestReview`: first failure wins. -/
def checkReviewers (s : Storage) : List String → Option String
  | [] => none
  | reviewerId :: rest =>
    match InMemoryAgentStorage.getById s reviewerId with
    | none => some ("Reviewer agent with id " ++ reviewerId ++ " not found")
    | some agent =>
      if !agent.capabilities.canComment then
        some ("Agent " ++ reviewerId ++ " does not have permission to review")
      else checkReviewers s rest

def ReviewService.requestReview (s : Storage) (params : RequestReviewParams) (newId : String)
    (now : Nat) : Except String ReviewRequest × Storage :=
  if isBlank params.rfcId then (Except.error "RFC ID is required", s)
  else if isBlank params.requestedBy then (Except.error "Requester ID is required", s)
  else if params.reviewerAgentIds = [] then (Except.error "At least one reviewer is required", s)
  else if deadlineNotFuture params.deadline now then
    (Except.error "Review deadline must be in the future", s)
  else
    match InMemoryRFCStorage.getById s params.rfcId with
    | none => (Except.error ("RFC with id " ++ params.rfcId ++ " not found"), s)
    | some rfc =>
      match InMemoryReviewStorage.getActiveByRFC s params.rfcId with
      | some _ =>
        (Except.error ("RFC " ++ params.rfcId ++ " already has an active review request"), s)
      | none =>
        match checkReviewers s params.reviewerAgentIds with
        | some e => (Except.error e, s)
        | none =>
          let reviewStatuses :=
            params.reviewerAgentIds.foldl
              (fun acc reviewerId => mapSet acc reviewerId ReviewStatus.pending) []
          let reviewRequest : ReviewRequest :=
            { id := newId, rfcId := params.rfcId, rfcVersion := rfc.version,
              requestedBy := params.requestedBy,
              reviewerAgentIds := params.reviewerAgentIds,
              reviewStatuses := reviewStatuses, deadline := params.deadline,
              createdAt := now }
          (Except.ok reviewRequest, InMemoryReviewStorage.create s reviewRequest)

/-- The comment loop of `submitReview`: each matching comment is written
to comment storage before the next is checked, so a mismatch throws with
the earlier writes already persisted. -/
def createComments (s : Storage) (rfcId : String) : List Comment → Except String Unit × Storage
  | [] => (Except.ok (), s)
  | c :: rest =>
    if c.rfcId ≠ rfcId then
      (Except.error ("Comment " ++ c.id ++ " is not for the RFC being reviewed"), s)
    else createComments (InMemoryCommentStorage.create s c) rfcId rest

def allCompletedB (sts : List (String × ReviewStatus)) : Bool :=
  sts.all (fun p => p.2 == ReviewStatus.completed)

def ReviewService.submitReview (s : Storage) (params : SubmitReviewParams) (now : Nat) :
    Except String Unit × Storage :=
  if isBlank params.reviewRequestId then (Except.error "Review request ID is required", s)
  else if isBlank params.agentId then (Except.error "Agent ID is required", s)
  else
    match InMemoryReviewStorage.getById s params.reviewRequestId with
    | none =>
      (Except.error ("Review request with id " ++ params.reviewRequestId ++ " not found"), s)
    | some reviewRequest =>
      if reviewRequest.completedAt.isSome then
        (Except.error ("Review request " ++ params.reviewRequestId ++ " is already completed"), s)
      else if !reviewRequest.reviewerAgentIds.contains params.agentId then
        (Except.error ("Agent " ++ params.agentId ++ " is not a reviewer for this request"), s)
      else if mapGet reviewRequest.reviewStatuses params.agentId = some ReviewStatus.completed then
        (Except.error ("Agent " ++ params.agentId ++ " has already submitted their review"), s)
      else if deadlinePassed reviewRequest.deadline now then
        (Except.error "Review deadline has passed", s)
      else
        match createComments s reviewRequest.rfcId params.comments with
        | (Except.error e, s1) => (Except.error e, s1)
        | (Except.ok _, s1) =>
          let statuses1 :=
            mapSet reviewRequest.reviewStatuses params.agentId ReviewStatus.completed
          let allCompleted := allCompletedB statuses1
          let reviewRequest1 : ReviewRequest :=
            { reviewRequest with
              reviewStatuses := statuses1,
              completedAt := if allCompleted then some now else reviewRequest.completedAt }
          (Except.ok (), InMemoryReviewStorage.update s1 reviewRequest1)

def ReviewService.getReviewStatus (s : Storage) (reviewRequestId : String) :
    Except String (List (String × ReviewStatus)) :=
  match InMemoryReviewStorage.getById s reviewRequestId with
  | none => Except.error ("Review request with id " ++ reviewRequestId ++ " not found")
  | some reviewRequest => Except.ok reviewRequest.reviewStatuses

def ReviewService.isReviewComplete (s : Storage) (reviewRequestId : String) :
    Except String Bool :=
  match InMemoryReviewStorage.getById s reviewRequestId with
  | none => Except.error ("Review request with id " ++ reviewRequestId ++ " not found")
  | some reviewRequest => Except.ok reviewRequest.completedAt.isSome

def ReviewService.markReviewInProgress (s : Storage) (reviewRequestId agentId : String) :
    Except String Unit × Storage :=
  match InMemoryReviewStorage.getById s reviewRequestId with
  | none =>
    (Except.error ("Review request with id " ++ reviewRequestId ++ " not found"), s)
  | some reviewRequest =>
    if !reviewRequest.reviewerAgentIds.contains agentId then
      (Except.error ("Agent " ++ agentId ++ " is not a reviewer for this request"), s)
    else if mapGet reviewRequest.reviewStatuses agentId = some ReviewStatus.completed then
      (Except.error ("Agent " ++ agentId ++ " has already completed their review"), s)
    else
      let updated : ReviewRequest :=
        { reviewRequest with
          reviewStatuses := mapSet reviewRequest.reviewStatuses agentId ReviewStatus.in_progress }
      (Except.ok (), InMemoryReviewStorage.update s updated)

def ReviewService.getActiveReviewForRFC (s : Storage) (rfcId : String) : Option ReviewRequest :=
  InMemoryReviewStorage.getActiveByRFC s rfcId

/-- The reviewer-appending loop of `addReviewersToActiveReview`.  The TS
code mutates the aliased request object held by the storage map, so a
failed lookup mid-loop leaves the ids appended so far in place; the loop
therefore returns the (possibly partial) request alongside the outcome. -/
def addReviewersGo (s : Storage) : ReviewRequest → List String → Except String ReviewRequest × ReviewRequest
  | rr, [] => (Except.ok rr, rr)
  | rr, reviewerId :: rest =>
    if rr.reviewerAgentIds.contains reviewerId then addReviewersGo s rr rest
    else
      match InMemoryAgentStorage.getById s reviewerId with
      | none => (Except.error ("Reviewer agent with id " ++ reviewerId ++ " not found"), rr)
      | some agent =>
        if !agent.capabilities.canComment then
          (Except.error ("Agent " ++ reviewerId ++ " does not have permission to review"), rr)
        else
          addReviewersGo s
            { rr with
              reviewerAgentIds := rr.reviewerAgentIds ++ [reviewerId],
              reviewStatuses := mapSet rr.reviewStatuses reviewerId ReviewStatus.pending }
            rest

def ReviewService.addReviewersToActiveReview (s : Storage) (rfcId : String)
    (newReviewerIds : List String) : Except String ReviewRequest × Storage :=
  match InMemoryReviewStorage.getActiveByRFC s rfcId with
  | none => (Except.error ("No active review found for RFC " ++ rfcId), s)
  | some activeReview =>
    match addReviewersGo s activeReview newReviewerIds with
    | (Except.ok rr1, _) => (Except.ok rr1, InMemoryReviewStorage.update s rr1)
    | (Except.error e, rr1) => (Except.error e, InMemoryReviewStorage.update s rr1)

/-! ## Association-list lemmas -/

theorem mapGet_mapSet_self {α : Type} (m : List (String × α)) (k : String) (v : α) :
    mapGet (mapSet m k v) k = some v := by
  induction m with
  | nil => simp [mapGet, mapSet]
  | cons p rest ih =>
    obtain ⟨k1, v1⟩ := p
    by_cases h : k1 = k
    · simp [mapGet, mapSet, h]
    · simp [mapGet, mapSet, h, ih]

theorem mapGet_mapSet_ne {α : Type} (m : List (String × α)) (k k' : String) (v : α)
    (h : k' ≠ k) : mapGet (mapSet m k v) k' = mapGet m k' := by
  induction m with
  | nil => simp [mapGet, mapSet, Ne.symm h]
  | cons p rest ih =>
    obtain ⟨k1, v1⟩ := p
    by_cases hk : k1 = k
    · subst hk
      simp [mapGet, mapSet, Ne.symm h]
    · simp only [mapSet, if_neg hk]
      by_cases hk' : k1 = k'
      · simp [mapGet, hk']
      · simp [mapGet, hk', ih]

theorem mapGet_mem {α : Type} {m : List (String × α)} {k : String} {v : α}
    (h : mapGet m k = some v) : (k, v) ∈ m := by
  induction m with
  | nil => simp [mapGet] at h
  | cons p rest ih =>
    obtain ⟨k1, v1⟩ := p
    by_cases hk : k1 = k
    · subst hk
      simp [mapGet] at h
      simp [h]
    · simp [mapGet, hk] at h
      exact List.mem_cons_of_mem _ (ih h)

theorem mapSet_subset {α : Type} {m : List (String × α)} {k : String} {v : α} {p : String × α}
    (h : p ∈ mapSet m k v) : p = (k, v) ∨ p ∈ m := by
  induction m with
  | nil => simp [mapSet] at h; simp [h]
  | cons q rest ih =>
    obtain ⟨k1, v1⟩ := q
    by_cases hk : k1 = k
    · simp [mapSet, hk] at h
      rcases h with h | h
      · exact Or.inl h
      · exact Or.inr (List.mem_cons_of_mem _ h)
    · simp only [mapSet, if_neg hk, List.mem_cons] at h
      rcases h with h | h
      · exact Or.inr (by simp [h])
      · rcases ih h with h' | h'
        · exact Or.inl h'
        · exact Or.inr (List.mem_cons_of_mem _ h')

theorem mapSet_of_get_none {α : Type} {m : List (String × α)} {k : String} (v : α)
    (h : mapGet m k = none) : mapSet m k v = m ++ [(k, v)] := by
  induction m with
  | nil => simp [mapSet]
  | cons p rest ih =>
    obtain ⟨k1, v1⟩ := p
    by_cases hk : k1 = k
    · simp [mapGet, hk] at h
    · simp [mapGet, hk] at h
      simp [mapSet, hk, ih h]

theorem mapGet_isSome_mapSet {α : Type} (m : List (String × α)) (k k' : String) (v : α)
    (h : (mapGet m k').isSome) : (mapGet (mapSet m k v) k').isSome := by
  by_cases hk : k' = k
  · subst hk
    simp [mapGet_mapSet_self]
  · rw [mapGet_mapSet_ne m k k' v hk]
    exact h

theorem setAdd_mem_self (l : List String) (x : String) : x ∈ setAdd l x := by
  by_cases h : x ∈ l
  · simp [setAdd, h]
  · simp [setAdd, h]

theorem setAdd_mem_of_mem {l : List String} {y : String} (x : String) (h : y ∈ l) :
    y ∈ setAdd l x := by
  by_cases hx : x ∈ l
  · simp [setAdd, hx, h]
  · simp [setAdd, hx, h]

theorem setAdd_subset {l : List String} {x y : String} (h : y ∈ setAdd l x) :
    y ∈ l ∨ y = x := by
  by_cases hx : x ∈ l
  · simp [setAdd, hx] at h
    exact Or.inl h
  · simp [setAdd, hx] at h
    exact h

/-! ## Sorting lemmas: `sortDesc` is a permutation, so membership is
unchanged. -/

theorem mem_insertDesc {r x : ReviewRequest} {l : List ReviewRequest} :
    x ∈ insertDesc r l ↔ x = r ∨ x ∈ l := by
  induction l with
  | nil => simp [insertDesc]
  | cons y ys ih =>
    by_cases h : y.createdAt < r.createdAt
    · simp [insertDesc, h]
    · simp [insertDesc, h, ih]
      tauto

theorem mem_sortDesc {x : ReviewRequest} {l : List ReviewRequest} :
    x ∈ sortDesc l ↔ x ∈ l := by
  induction l with
  | nil => simp [sortDesc]
  | cons y ys ih =>
    simp [sortDesc, mem_insertDesc, ih]

/-! ## Lemmas about the JS string operations -/

theorem jsIndexOf_spec {s pat : List Char} {i : Nat} (h : jsIndexOf s pat = some i) :
    pat.isPrefixOf (s.drop i) = true ∧ ∀ j, j < i → pat.isPrefixOf (s.drop j) = false := by
  induction s generalizing i with
  | nil =>
    rw [jsIndexOf] at h
    by_cases hp : pat.isPrefixOf ([] : List Char)
    · simp [hp] at h
      subst h
      exact ⟨hp, fun j hj => absurd hj (Nat.not_lt_zero j)⟩
    · simp [hp] at h
  | cons c rest ih =>
    rw [jsIndexOf] at h
    by_cases hp : pat.isPrefixOf (c :: rest)
    · simp [hp] at h
      subst h
      exact ⟨by simpa using hp, fun j hj => absurd hj (Nat.not_lt_zero j)⟩
    · simp only [if_neg hp, Option.map_eq_some'] at h
      obtain ⟨n, hn, hi⟩ := h
      obtain ⟨h1, h2⟩ := ih hn
      subst hi
      refine ⟨by simpa using h1, ?_⟩
      intro j hj
      cases j with
      | zero => simpa using eq_false_of_ne_true (fun hc => hp hc)
      | succ j' =>
        have : j' < n := Nat.lt_of_succ_lt_succ hj
        simpa using h2 j' this

theorem jsIncludes_iff_infix (s pat : List Char) :
    jsIncludes s pat = true ↔ pat <:+: s := by
  constructor
  · intro h
    simp only [jsIncludes, Option.isSome_iff_exists] at h
    obtain ⟨i, hi⟩ := h
    obtain ⟨h1, _⟩ := jsIndexOf_spec hi
    have hpre : pat <+: s.drop i := List.isPrefixOf_iff_prefix.mp h1
    obtain ⟨r, hr⟩ := hpre
    refine ⟨s.take i, r, ?_⟩
    rw [List.append_assoc, hr, List.take_append_drop]
  · rintro ⟨u, v, huv⟩
    subst huv
    induction u with
    | nil =>
      have hpre : pat.isPrefixOf (pat ++ v) = true :=
        List.isPrefixOf_iff_prefix.mpr ⟨v, rfl⟩
      simp only [jsIncludes, List.nil_append]
      rw [jsIndexOf.eq_def]
      simp [hpre]
    | cons c u' ih =>
      simp only [jsIncludes, List.cons_append]
      rw [jsIndexOf.eq_def]
      split
      · simp
      · simp only [Option.isSome_map]
        simpa [jsIncludes, List.append_assoc] using ih

theorem jsSplitGo_ne_nil (sep s : List Char) : jsSplitGo sep s ≠ [] := by
  rw [jsSplitGo.eq_def]
  cases s with
  | nil => simp
  | cons c rest =>
    by_cases hp : sep.isPrefixOf (c :: rest)
    · simp [hp]
    · simp only [if_neg hp]
      cases h : jsSplitGo sep rest <;> simp

theorem jsJoin_cons (sep x : List Char) {l : List (List Char)} (h : l ≠ []) :
    jsJoin sep (x :: l) = x ++ sep ++ jsJoin sep l := by
  cases l with
  | nil => exact absurd rfl h
  | cons y t => rfl

theorem jsJoin_jsSplitGo (sep new : List Char) (s : List Char) :
    jsJoin new (jsSplitGo sep s) = replaceAllOcc sep new s := by
  induction s using jsSplitGo.induct sep with
  | case1 =>
    rw [jsSplitGo, replaceAllOcc]
    rfl
  | case2 c rest hp ih =>
    rw [jsSplitGo, replaceAllOcc]
    simp only [if_pos hp]
    rw [jsJoin_cons new [] (jsSplitGo_ne_nil sep _), ih]
    simp
  | case3 c rest hp hnil ih =>
    exact absurd hnil (jsSplitGo_ne_nil sep rest)
  | case4 c rest hp x t hxt ih =>
    rw [jsSplitGo, replaceAllOcc]
    simp only [if_neg hp]
    rw [hxt] at ih ⊢
    cases t with
    | nil =>
      simp only [jsJoin] at ih ⊢
      rw [ih]
    | cons y t2 =>
      rw [jsJoin_cons new (c :: x) (by simp)]
      rw [jsJoin_cons new x (by simp)] at ih
      rw [← ih]
      simp

theorem jsSplit_of_ne_nil (s sep : List Char) (h : sep ≠ []) :
    jsSplit s sep = jsSplitGo sep s := by
  simp [jsSplit, h]

/-! ## Version-list lemmas for the RFC storage -/

/-- Well-formedness of one document's stored version array: every record
carries the document's id and versions strictly increase left to right. -/
def VersionsOk (id : String) (l : List RFC) : Prop :=
  l ≠ [] ∧ (∀ r ∈ l, r.id = id) ∧ List.Chain' (fun a b => a.version < b.version) l

theorem versions_le_getLast {l : List RFC} {x : RFC}
    (hchain : List.Chain' (fun a b => a.version < b.version) l)
    (hlast : l.getLast? = some x) : ∀ r ∈ l, r.version ≤ x.version := by
  induction l with
  | nil => simp
  | cons a rest ih =>
    cases rest with
    | nil =>
      simp only [List.getLast?_singleton, Option.some_inj] at hlast
      subst hlast
      simp
    | cons b t =>
      obtain ⟨hab, hchain'⟩ := List.chain'_cons.mp hchain
      rw [List.getLast?_cons_cons] at hlast
      have hrest := ih hchain' hlast
      intro r hr
      rcases List.mem_cons.mp hr with h | h
      · subst h
        have hb := hrest b (List.mem_cons_self b t)
        omega
      · exact hrest r h

theorem latestOf_eq_getLast {l : List RFC}
    (hchain : List.Chain' (fun a b => a.version < b.version) l) :
    latestOf l = l.getLast? := by
  induction l with
  | nil => rfl
  | cons v rest ih =>
    cases rest with
    | nil => rfl
    | cons b t =>
      obtain ⟨hvb, hchain'⟩ := List.chain'_cons.mp hchain
      have ih' := ih hchain'
      simp only [latestOf, Option.some_inj] at ih' ⊢
      rw [List.getLast?_cons_cons]
      rw [← ih']
      simp only [List.foldl_cons]
      congr 1
      simp only [gt_iff_lt]
      rw [if_pos hvb]

theorem findIdx?_version_none {l : List RFC} {n : Nat} (h : ∀ r ∈ l, r.version < n) :
    l.findIdx? (fun v => v.version == n) = none := by
  rw [List.findIdx?_eq_none_iff]
  intro x hx
  have := h x hx
  simp only [beq_eq_false_iff_ne, ne_eq]
  omega

/-- When the incoming record's version equals the last (largest) stored
version, `findIndex` hits exactly the last slot, so the `set` replaces
the final record. -/
theorem findIdx_set_last {l : List RFC} {x rfc : RFC}
    (hchain : List.Chain' (fun a b => a.version < b.version) l)
    (hlast : l.getLast? = some x) (hv : rfc.version = x.version) :
    (match l.findIdx? (fun v => v.version == rfc.version) with
     | some i => l.set i rfc
     | none => l ++ [rfc]) = l.dropLast ++ [rfc] := by
  induction l with
  | nil => simp at hlast
  | cons a rest ih =>
    cases rest with
    | nil =>
      simp only [List.getLast?_singleton, Option.some_inj] at hlast
      subst hlast
      have : (fun v => v.version == rfc.version) a = true := by simp [hv]
      simp [List.findIdx?_cons, this]
    | cons b t =>
      obtain ⟨hab, hchain'⟩ := List.chain'_cons.mp hchain
      rw [List.getLast?_cons_cons] at hlast
      have hble := versions_le_getLast hchain' hlast b (List.mem_cons_self b t)
      have hpa : (a.version == rfc.version) = false := by
        simp only [beq_eq_false_iff_ne, ne_eq]
        omega
      have ihr := ih hchain' hlast
      rw [List.findIdx?_cons]
      simp only [hpa, Bool.false_eq_true, if_false, List.findIdx?_succ]
      cases hfi : (b :: t).findIdx? (fun v => v.version == rfc.version) with
      | none =>
        rw [hfi] at ihr
        simp only [hfi, Option.map_none', List.cons_append]
        rw [show (a :: b :: t).dropLast = a :: (b :: t).dropLast from rfl]
        simpa [List.cons_append] using congrArg (List.cons a) ihr
      | some i =>
        rw [hfi] at ihr
        simp only [hfi, Option.map_some', List.set_cons_succ]
        rw [show (a :: b :: t).dropLast = a :: (b :: t).dropLast from rfl]
        simpa [List.cons_append] using congrArg (List.cons a) ihr

/-! ## Claim C3: the status-transition table -/

/-- The transition table exactly as the claim lists it (spec words, to be
compared with the code's `validTransitions`). -/
def specAllowedPairs : List (RFCStatus × RFCStatus) :=
  [(RFCStatus.draft, RFCStatus.in_review), (RFCStatus.draft, RFCStatus.rejected),
   (RFCStatus.in_review, RFCStatus.approved), (RFCStatus.in_review, RFCStatus.rejected),
   (RFCStatus.in_review, RFCStatus.draft), (RFCStatus.approved, RFCStatus.superseded),
   (RFCStatus.rejected, RFCStatus.draft)]

/-- C3: the code's transition predicate coincides with the claim's table;
for a pair outside the table `updateRFCStatus` throws the invalid-transition
error naming both states and returns the storage untouched (so the
document's status and version are unchanged); for a pair in the table it
succeeds, returning the record with only status and updatedAt changed. -/
theorem C3_status_transition_table (s : Storage) (rfcId : String) (rfc : RFC)
    (toStatus : RFCStatus) (now : Nat)
    (h : InMemoryRFCStorage.getById s rfcId = some rfc) :
    (∀ a b : RFCStatus,
      RFCService.validateStatusTransition a b = true ↔ (a, b) ∈ specAllowedPairs) ∧
    (RFCService.validateStatusTransition rfc.status toStatus = false →
      RFCService.updateRFCStatus s rfcId toStatus now =
        (Except.error ("Invalid status transition from " ++ rfc.status.str ++
          " to " ++ toStatus.str), s)) ∧
    (RFCService.validateStatusTransition rfc.status toStatus = true →
      (RFCService.updateRFCStatus s rfcId toStatus now).1 =
        Except.ok { rfc with status := toStatus, updatedAt := now }) := by
  refine ⟨?_, ?_, ?_⟩
  · intro a b
    cases a <;> cases b <;> simp [RFCService.validateStatusTransition, validTransitions,
      specAllowedPairs]
  · intro hfalse
    simp only [RFCService.updateRFCStatus, h]
    rw [hfalse]
    simp
  · intro htrue
    simp only [RFCService.updateRFCStatus, h]
    rw [htrue]
    simp

def storageC3 : Storage :=
  (RFCService.createRFC Storage.empty "r1" 0
    { title := "T", content := "JWT".toList, author := "a", requestingUser := "u" }).2

def rfcC3 : RFC :=
  { id := "r1", version := 1, status := RFCStatus.draft, title := "T",
    content := "JWT".toList, author := "a", requestingUser := "u",
    createdAt := 0, updatedAt := 0 }

/-- Witness for C3 at a concrete document: draft → approved is rejected
with storage unchanged, draft → in_review succeeds. -/
theorem C3_status_transition_table_witness :
    RFCService.updateRFCStatus storageC3 "r1" RFCStatus.approved 5 =
      (Except.error "Invalid status transition from draft to approved", storageC3) ∧
    (RFCService.updateRFCStatus storageC3 "r1" RFCStatus.in_review 5).1 =
      Except.ok { rfcC3 with status := RFCStatus.in_review, updatedAt := 5 } := by
  have h := C3_status_transition_table storageC3 "r1" rfcC3 RFCStatus.approved 5 (by decide)
  have h2 := C3_status_transition_table storageC3 "r1" rfcC3 RFCStatus.in_review 5 (by decide)
  exact ⟨h.2.1 (by decide), h2.2.2 (by decide)⟩

/-! ## Claim C6: inline comments must quote a literal substring -/

/-- C6: with commentType inline, `addComment` succeeds only when a
non-empty quotedText was supplied that the JS `includes` check finds in
the current content (and `includes` means exactly literal-substring
membership, the final conjunct); when quotedText is missing or not such a
substring, the call throws and the storage — in particular the comment
store — is returned unchanged. -/
theorem C6_inline_comment_anchor (s : Storage) (params : AddCommentParams)
    (newId : String) (now : Nat) (hk : params.commentType = CommentType.inline) :
    (∀ c s', CommentService.addComment s params newId now = (Except.ok c, s') →
      ∃ rfc qt, InMemoryRFCStorage.getById s params.rfcId = some rfc ∧
        params.quotedText = some qt ∧ qt ≠ [] ∧ jsIncludes rfc.content qt = true ∧
        c.textReference = some { quotedText := qt, lineNumber := params.lineReference,
                                 textSpan := params.textSpan } ∧
        s' = InMemoryCommentStorage.create s c) ∧
    (params.quotedText = none →
      ∃ e, CommentService.addComment s params newId now = (Except.error e, s)) ∧
    (∀ rfc qt, InMemoryRFCStorage.getById s params.rfcId = some rfc →
      params.quotedText = some qt → jsIncludes rfc.content qt = false →
      ∃ e, CommentService.addComment s params newId now = (Except.error e, s)) ∧
    (∀ l pat : List Char, jsIncludes l pat = true ↔ pat <:+: l) := by
  refine ⟨?_, ?_, ?_, fun l pat => jsIncludes_iff_infix l pat⟩
  · intro c s' hok
    simp only [CommentService.addComment, hk, eq_self_iff_true, if_true] at hok
    split at hok
    · simp at hok
    · split at hok
      · simp at hok
      · split at hok
        · simp at hok
        · split at hok
          · simp at hok
          · rename_i rfc hrfc
            split at hok
            · simp at hok
            · rename_i agent hagent
              split at hok
              · simp at hok
              · split at hok
                · simp at hok
                · rename_i tr htr
                  split at htr
                  · simp at htr
                  · rename_i qt hqt
                    split at htr
                    · simp at htr
                    · rename_i hqe
                      split at htr
                      · simp at htr
                      · rename_i hinc
                        simp only [Except.ok.injEq] at htr
                        simp only [Prod.mk.injEq, Except.ok.injEq] at hok
                        obtain ⟨hc, hs'⟩ := hok
                        subst hc
                        refine ⟨rfc, qt, hrfc, hqt, hqe, by simpa using hinc, ?_, hs'.symm⟩
                        exact htr.symm
  · intro hq
    simp only [CommentService.addComment, hk, hq, eq_self_iff_true, if_true]
    split
    · exact ⟨_, rfl⟩
    · split
      · exact ⟨_, rfl⟩
      · split
        · exact ⟨_, rfl⟩
        · split
          · exact ⟨_, rfl⟩
          · split
            · exact ⟨_, rfl⟩
            · split
              · exact ⟨_, rfl⟩
              · exact ⟨_, rfl⟩
  · intro rfc qt hrfc hq hninc
    simp only [CommentService.addComment, hk, hq, hrfc, eq_self_iff_true, if_true]
    split
    · exact ⟨_, rfl⟩
    · split
      · exact ⟨_, rfl⟩
      · split
        · exact ⟨_, rfl⟩
        · split
          · exact ⟨_, rfl⟩
          · split
            · exact ⟨_, rfl⟩
            · by_cases hqe : qt = []
              · simp [hqe]
              · simp [hqe, hninc]

def storageC6 : Storage :=
  (AgentService.createAgent
    ((RFCService.createRFC Storage.empty "r1" 0
      { title := "T", content := "JWT tokens".toList, author := "a",
        requestingUser := "u" }).2)
    "ag1" 0 AgentType.backend "B" none).2

def paramsC6 : AddCommentParams :=
  { rfcId := "r1", agentId := "ag1", agentType := AgentType.backend,
    commentType := CommentType.inline, content := "needs fix",
    quotedText := some "line two".toList }

def rfcC6 : RFC :=
  { id := "r1", version := 1, status := RFCStatus.draft, title := "T",
    content := "JWT tokens".toList, author := "a", requestingUser := "u",
    createdAt := 0, updatedAt := 0 }

/-- Witness for C6: an inline comment quoting "line two" against a
document whose content does not contain it throws, and the storage is
returned unchanged. -/
theorem C6_inline_comment_anchor_witness :
    ∃ e, CommentService.addComment storageC6 paramsC6 "c1" 1 =
      (Except.error e, storageC6) :=
  (C6_inline_comment_anchor storageC6 paramsC6 "c1" 1 rfl).2.2.1 rfcC6
    ("line two".toList) (by decide) rfl (by decide)

/-! ## Claim C10: document-level comments ignore quotedText -/

/-- C10: with commentType document_level, `addComment` never consults
quotedText — the outcome is identical for any two parameter records that
agree on rfcId, agentId, agentType, commentType and content (quotedText,
lineReference and textSpan are free to differ) — and a successful call
persists a comment with no textReference. -/
theorem C10_document_level_ignores_quotedText (s : Storage) (params : AddCommentParams)
    (newId : String) (now : Nat) (hk : params.commentType = CommentType.document_level) :
    (∀ p2 : AddCommentParams, params.rfcId = p2.rfcId → params.agentId = p2.agentId →
      params.agentType = p2.agentType → params.commentType = p2.commentType →
      params.content = p2.content →
      CommentService.addComment s params newId now =
        CommentService.addComment s p2 newId now) ∧
    (∀ c s', CommentService.addComment s params newId now = (Except.ok c, s') →
      c.textReference = none) := by
  constructor
  · intro p2 h1 h2 h3 h4 h5
    obtain ⟨r1, a1, t1, k1, c1, q1, l1, sp1⟩ := params
    obtain ⟨r2, a2, t2, k2, c2, q2, l2, sp2⟩ := p2
    simp only at hk h1 h2 h3 h4 h5
    subst hk h1 h2 h3 h5
    rw [← h4]
    simp [CommentService.addComment]
  · intro c s' hok
    simp only [CommentService.addComment, hk, reduceIte] at hok
    split at hok
    · simp at hok
    · split at hok
      · simp at hok
      · split at hok
        · simp at hok
        · split at hok
          · simp at hok
          · split at hok
            · simp at hok
            · split at hok
              · simp at hok
              · rw [if_neg (by simp :
                  ¬ (CommentType.document_level = CommentType.inline))] at hok
                simp only [Prod.mk.injEq, Except.ok.injEq] at hok
                obtain ⟨hc, hs'⟩ := hok
                subst hc
                rfl

def paramsC10 : AddCommentParams :=
  { rfcId := "r1", agentId := "ag1", agentType := AgentType.backend,
    commentType := CommentType.document_level, content := "looks fine",
    quotedText := some "not in the document".toList }

def commentC10 : Comment :=
  { id := "c1", rfcId := "r1", rfcVersion := 1, agentId := "ag1",
    agentType := AgentType.backend, type := CommentType.document_level,
    content := "looks fine", status := CommentStatus.open_, createdAt := 1 }

/-- Witness for C10: a document-level comment carrying a quotedText that
does not occur in the document still succeeds, the persisted comment has
no textReference, and dropping the quotedText gives the identical result. -/
theorem C10_document_level_ignores_quotedText_witness :
    commentC10.textReference = none ∧
    CommentService.addComment storageC6 paramsC10 "c1" 1 =
      CommentService.addComment storageC6 { paramsC10 with quotedText := none } "c1" 1 :=
  ⟨(C10_document_level_ignores_quotedText storageC6 paramsC10 "c1" 1 rfl).2 commentC10
      (InMemoryCommentStorage.create storageC6 commentC10) rfl,
   (C10_document_level_ignores_quotedText storageC6 paramsC10 "c1" 1 rfl).1
      { paramsC10 with quotedText := none } rfl rfl rfl rfl rfl⟩

/-! ## Claim C7: replaceString semantics -/

/-- C7: `replaceString` first checks that oldText occurs in the current
content and throws with the storage untouched when it does not (so the
version is unchanged); when it occurs, with replaceAll=true the result
content replaces every (leftmost-first, non-overlapping) occurrence —
stated against the spec-side `replaceAllOcc`, for non-empty oldText, the
only case where "every occurrence" is well defined — and with
replaceAll=false exactly the leftmost occurrence is spliced out (the
final conjunct certifies that `jsIndexOf` returns the leftmost match);
in both cases the result goes through `updateRFCContent`, so the returned
document's version is the old version plus one. -/
theorem C7_replaceString (s : Storage) (params : ReplaceStringParams) (now : Nat) (rfc : RFC)
    (h : InMemoryRFCStorage.getById s params.rfcId = some rfc) :
    (jsIncludes rfc.content params.oldText = false →
      RFCService.replaceString s params now =
        (Except.error ("String \"" ++ String.mk params.oldText ++
          "\" not found in RFC content"), s)) ∧
    (jsIncludes rfc.content params.oldText = true → params.replaceAll = true →
      params.oldText ≠ [] →
      ∃ rfc' s', RFCService.replaceString s params now = (Except.ok rfc', s') ∧
        rfc'.content = replaceAllOcc params.oldText params.newText rfc.content ∧
        rfc'.version = rfc.version + 1 ∧
        s' = (RFCService.updateRFCContent s params.rfcId rfc'.content now).2) ∧
    (jsIncludes rfc.content params.oldText = true → params.replaceAll = false →
      ∃ i rfc' s', jsIndexOf rfc.content params.oldText = some i ∧
        RFCService.replaceString s params now = (Except.ok rfc', s') ∧
        rfc'.content = rfc.content.take i ++ params.newText ++
          rfc.content.drop (i + params.oldText.length) ∧
        rfc'.version = rfc.version + 1 ∧
        s' = (RFCService.updateRFCContent s params.rfcId rfc'.content now).2) ∧
    (∀ l pat : List Char, ∀ i, jsIndexOf l pat = some i →
      pat.isPrefixOf (l.drop i) = true ∧ ∀ j, j < i → pat.isPrefixOf (l.drop j) = false) := by
  refine ⟨?_, ?_, ?_, fun l pat i hi => jsIndexOf_spec hi⟩
  · intro hninc
    simp only [RFCService.replaceString, h, RFCService.validateStringExists, hninc,
      Bool.false_eq_true, if_false]
  · intro hinc hra hne
    simp only [RFCService.replaceString, h, RFCService.validateStringExists, hinc,
      hra, if_true, RFCService.updateRFCContent]
    refine ⟨_, _, rfl, ?_, rfl, ?_⟩
    · simp only []
      rw [jsSplit_of_ne_nil _ _ hne, jsJoin_jsSplitGo]
    · simp only [RFCService.updateRFCContent, h]
  · intro hinc hra
    obtain ⟨i, hi⟩ := Option.isSome_iff_exists.mp hinc
    simp only [RFCService.replaceString, h, RFCService.validateStringExists, hinc,
      hra, Bool.false_eq_true, if_false, if_true, hi, RFCService.updateRFCContent]
    exact ⟨i, _, _, rfl, rfl, rfl, rfl, rfl⟩

def storageC7 : Storage :=
  (RFCService.createRFC Storage.empty "r1" 0
    { title := "T", content := "JWT is used. JWT validated.".toList, author := "a",
      requestingUser := "u" }).2

def paramsC7 : ReplaceStringParams :=
  { rfcId := "r1", oldText := "JWT".toList, newText := "JWT+OAuth".toList,
    replaceAll := true }

def rfcC7 : RFC :=
  { id := "r1", version := 1, status := RFCStatus.draft, title := "T",
    content := "JWT is used. JWT validated.".toList, author := "a",
    requestingUser := "u", createdAt := 0, updatedAt := 0 }

/-- Witness for C7: the specification's concrete scenario — replaceAll on
"JWT is used. JWT validated." yields "JWT+OAuth is used. JWT+OAuth
validated.", and a missing oldText throws with the storage unchanged. -/
theorem C7_replaceString_witness :
    (RFCService.replaceString storageC7 paramsC7 1).1.map RFC.content =
      Except.ok "JWT+OAuth is used. JWT+OAuth validated.".toList ∧
    RFCService.replaceString storageC7 { paramsC7 with oldText := "XYZ".toList } 1 =
      (Except.error "String \"XYZ\" not found in RFC content", storageC7) := by
  constructor
  · obtain ⟨rfc', s', heq, hc, hv, hs⟩ :=
      (C7_replaceString storageC7 paramsC7 1 rfcC7 (by decide)).2.1 (by decide) rfl
        (by decide)
    rw [heq]
    simp only [Except.map, Except.ok.injEq]
    rw [hc]
    simp [replaceAllOcc, paramsC7, rfcC7, String.toList]
  · exact (C7_replaceString storageC7 { paramsC7 with oldText := "XYZ".toList } 1 rfcC7
      (by decide)).1 (by decide)

/-! ## Claim C8: submitReview failure cases -/

/-- C8: once a review request is found and not yet completed,
`submitReview` throws with the storage completely unchanged (so no
reviewer is marked COMPLETED) when the deadline has passed, when the
submitting reviewer has already submitted, or when the submitting agent
is not a listed reviewer. -/
theorem C8_submitReview_failures (s : Storage) (params : SubmitReviewParams) (now : Nat)
    (rr : ReviewRequest)
    (h1 : isBlank params.reviewRequestId = false) (h2 : isBlank params.agentId = false)
    (h3 : InMemoryReviewStorage.getById s params.reviewRequestId = some rr)
    (h4 : rr.completedAt = none) :
    (params.agentId ∈ rr.reviewerAgentIds →
      mapGet rr.reviewStatuses params.agentId ≠ some ReviewStatus.completed →
      ∀ d, rr.deadline = some d → d < now →
      ReviewService.submitReview s params now =
        (Except.error "Review deadline has passed", s)) ∧
    (params.agentId ∈ rr.reviewerAgentIds →
      mapGet rr.reviewStatuses params.agentId = some ReviewStatus.completed →
      ReviewService.submitReview s params now =
        (Except.error ("Agent " ++ params.agentId ++ " has already submitted their review"),
         s)) ∧
    (params.agentId ∉ rr.reviewerAgentIds →
      ReviewService.submitReview s params now =
        (Except.error ("Agent " ++ params.agentId ++ " is not a reviewer for this request"),
         s)) := by
  refine ⟨?_, ?_, ?_⟩
  · intro hmem hnc d hd hlt
    have hcont : rr.reviewerAgentIds.contains params.agentId = true :=
      List.elem_iff.mpr hmem
    simp only [ReviewService.submitReview, h1, h2, h3, h4, hcont, hd, deadlinePassed,
      Bool.false_eq_true, if_false, Option.isSome_none, Bool.not_true, Bool.not_false,
      if_true, if_neg hnc, hlt]
    simp
  · intro hmem hc
    have hcont : rr.reviewerAgentIds.contains params.agentId = true :=
      List.elem_iff.mpr hmem
    simp only [ReviewService.submitReview, h1, h2, h3, h4, hcont,
      Bool.false_eq_true, if_false, Option.isSome_none, Bool.not_true, Bool.not_false,
      if_true, if_pos hc]
  · intro hmem
    have hcont : rr.reviewerAgentIds.contains params.agentId = false := by
      rw [← Bool.not_eq_true]
      intro hcc
      exact hmem (List.elem_iff.mp hcc)
    simp only [ReviewService.submitReview, h1, h2, h3, h4, hcont,
      Bool.false_eq_true, if_false, Option.isSome_none, Bool.not_true, Bool.not_false,
      if_true]

def storageC8 : Storage :=
  let s0 := (RFCService.createRFC Storage.empty "r1" 0
    { title := "T", content := "C".toList, author := "a", requestingUser := "u" }).2
  let s1 := (AgentService.createAgent s0 "ag1" 0 AgentType.backend "B" none).2
  let s2 := (AgentService.createAgent s1 "ag2" 0 AgentType.security "S" none).2
  (ReviewService.requestReview s2
    { rfcId := "r1", requestedBy := "lead", reviewerAgentIds := ["ag1", "ag2"],
      deadline := some 10 } "rev1" 3).2

def rrC8 : ReviewRequest :=
  { id := "rev1", rfcId := "r1", rfcVersion := 1, requestedBy := "lead",
    reviewerAgentIds := ["ag1", "ag2"],
    reviewStatuses := [("ag1", ReviewStatus.pending), ("ag2", ReviewStatus.pending)],
    deadline := some 10, createdAt := 3 }

def storageC8b : Storage :=
  (ReviewService.submitReview storageC8
    { reviewRequestId := "rev1", agentId := "ag1", comments := [] } 5).2

def rrC8b : ReviewRequest :=
  { rrC8 with
    reviewStatuses := [("ag1", ReviewStatus.completed), ("ag2", ReviewStatus.pending)] }

/-- Witness for C8 at a concrete two-reviewer request: a submission past
the deadline, a second submission by the same reviewer, and a submission
by an unlisted agent all throw with the storage unchanged. -/
theorem C8_submitReview_failures_witness :
    ReviewService.submitReview storageC8
      { reviewRequestId := "rev1", agentId := "ag1", comments := [] } 11 =
      (Except.error "Review deadline has passed", storageC8) ∧
    ReviewService.submitReview storageC8b
      { reviewRequestId := "rev1", agentId := "ag1", comments := [] } 6 =
      (Except.error "Agent ag1 has already submitted their review", storageC8b) ∧
    ReviewService.submitReview storageC8
      { reviewRequestId := "rev1", agentId := "zz", comments := [] } 5 =
      (Except.error "Agent zz is not a reviewer for this request", storageC8) :=
  ⟨(C8_submitReview_failures storageC8
      { reviewRequestId := "rev1", agentId := "ag1", comments := [] } 11 rrC8
      (by decide) (by decide) (by decide) rfl).1 (by decide) (by decide) 10 rfl
      (by decide),
   (C8_submitReview_failures storageC8b
      { reviewRequestId := "rev1", agentId := "ag1", comments := [] } 6 rrC8b
      (by decide) (by decide) (by decide) rfl).2.1 (by decide) (by decide),
   (C8_submitReview_failures storageC8
      { reviewRequestId := "rev1", agentId := "zz", comments := [] } 5 rrC8
      (by decide) (by decide) (by decide) rfl).2.2 (by decide)⟩

/-! ## Claim C9: the bulk comment write of submitReview is not atomic -/

/-- The comment loop of `submitReview` persists every comment before the
first rfcId mismatch and throws there, leaving those writes in place. -/
theorem createComments_error_mid (rfcId : String) (bad : Comment)
    (h10 : bad.rfcId ≠ rfcId) :
    ∀ (pre : List Comment) (s : Storage) (rest : List Comment),
      (∀ c ∈ pre, c.rfcId = rfcId) →
      createComments s rfcId (pre ++ bad :: rest) =
        (Except.error ("Comment " ++ bad.id ++ " is not for the RFC being reviewed"),
         { s with comments := pre.foldl (fun m c => mapSet m c.id c) s.comments }) := by
  intro pre
  induction pre with
  | nil =>
    intro s rest hpre
    simp [createComments, h10]
  | cons c pre' ih =>
    intro s rest hpre
    have hc : c.rfcId = rfcId := hpre c (List.mem_cons_self c pre')
    simp only [List.cons_append, createComments, hc, ne_eq, not_true_eq_false,
      if_false]
    rw [show pre'.append (bad :: rest) = pre' ++ bad :: rest from rfl]
    rw [ih (InMemoryCommentStorage.create s c) rest
      (fun x hx => hpre x (List.mem_cons_of_mem c hx))]
    rfl

/-- C9: when the comments array contains a first comment whose rfcId does
not match the review's rfcId, `submitReview` throws — but every comment
before it has already been written into comment storage, while the
reviews map (reviewer statuses, completed-at) is untouched. -/
theorem C9_submitReview_partial_writes (s : Storage) (params : SubmitReviewParams)
    (now : Nat) (rr : ReviewRequest) (pre rest : List Comment) (bad : Comment)
    (h1 : isBlank params.reviewRequestId = false) (h2 : isBlank params.agentId = false)
    (h3 : InMemoryReviewStorage.getById s params.reviewRequestId = some rr)
    (h4 : rr.completedAt = none)
    (h5 : params.agentId ∈ rr.reviewerAgentIds)
    (h6 : mapGet rr.reviewStatuses params.agentId ≠ some ReviewStatus.completed)
    (h7 : deadlinePassed rr.deadline now = false)
    (h8 : params.comments = pre ++ bad :: rest)
    (h9 : ∀ c ∈ pre, c.rfcId = rr.rfcId)
    (h10 : bad.rfcId ≠ rr.rfcId) :
    ReviewService.submitReview s params now =
      (Except.error ("Comment " ++ bad.id ++ " is not for the RFC being reviewed"),
       { s with comments := pre.foldl (fun m c => mapSet m c.id c) s.comments }) := by
  have hcont : rr.reviewerAgentIds.contains params.agentId = true :=
    List.elem_iff.mpr h5
  have hcc := createComments_error_mid rr.rfcId bad h10 pre s rest h9
  simp only [ReviewService.submitReview, h1, h2, h3, h4, hcont, h7,
    Bool.false_eq_true, if_false, Option.isSome_none, Bool.not_true, Bool.not_false,
    if_true, if_neg h6]
  rw [h8, hcc]

def storageC9 : Storage :=
  let s0 := (RFCService.createRFC Storage.empty "r1" 0
    { title := "T", content := "C".toList, author := "a", requestingUser := "u" }).2
  let s1 := (AgentService.createAgent s0 "ag1" 0 AgentType.backend "B" none).2
  let s2 := (AgentService.createAgent s1 "ag2" 0 AgentType.security "S" none).2
  (ReviewService.requestReview s2
    { rfcId := "r1", requestedBy := "lead", reviewerAgentIds := ["ag1", "ag2"] }
    "rev1" 3).2

def rrC9 : ReviewRequest :=
  { id := "rev1", rfcId := "r1", rfcVersion := 1, requestedBy := "lead",
    reviewerAgentIds := ["ag1", "ag2"],
    reviewStatuses := [("ag1", ReviewStatus.pending), ("ag2", ReviewStatus.pending)],
    createdAt := 3 }

def commentGoodC9 : Comment :=
  { id := "c1", rfcId := "r1", rfcVersion := 1, agentId := "ag1",
    agentType := AgentType.backend, type := CommentType.document_level,
    content := "fine", status := CommentStatus.open_, createdAt := 4 }

def commentBadC9 : Comment :=
  { id := "c2", rfcId := "other-rfc", rfcVersion := 1, agentId := "ag1",
    agentType := AgentType.backend, type := CommentType.document_level,
    content := "wrong target", status := CommentStatus.open_, createdAt := 4 }

/-- Witness for C9: submitting [good, bad] throws on the bad comment but
the good comment is already persisted; reviews are untouched. -/
theorem C9_submitReview_partial_writes_witness :
    ReviewService.submitReview storageC9
      { reviewRequestId := "rev1", agentId := "ag1",
        comments := [commentGoodC9, commentBadC9] } 5 =
      (Except.error "Comment c2 is not for the RFC being reviewed",
       { storageC9 with
         comments := mapSet storageC9.comments "c1" commentGoodC9 }) :=
  C9_submitReview_partial_writes storageC9
    { reviewRequestId := "rev1", agentId := "ag1",
      comments := [commentGoodC9, commentBadC9] } 5 rrC9 [commentGoodC9] []
    commentBadC9 (by decide) (by decide) (by decide) rfl (by decide) (by decide) rfl
    rfl (by decide) (by decide)
/-! ## Claim C2: version history under repeated content updates -/

/-- One successful `updateRFCContent` against a well-formed version list
appends exactly one record with version+1 and makes it the new latest. -/
theorem updateRFCContent_step (s : Storage) (rfcId : String) (content : List Char)
    (now : Nat) {l : List RFC} {x : RFC}
    (hl : mapGet s.rfcs rfcId = some l)
    (hlat : mapGet s.latestVersions rfcId = some x)
    (hids : ∀ r ∈ l, r.id = rfcId)
    (hchain : List.Chain' (fun a b => a.version < b.version) l)
    (hlast : l.getLast? = some x) :
    ∃ newV : RFC,
      newV = { x with
               version := x.version + 1
               content := content
               updatedAt := now
               previousVersionId := some (x.id ++ "-v" ++ toString x.version) } ∧
      RFCService.updateRFCContent s rfcId content now =
        (Except.ok newV,
         { s with rfcs := mapSet s.rfcs rfcId (l ++ [newV]),
                  latestVersions := mapSet s.latestVersions rfcId newV }) := by
  have hxid : x.id = rfcId := hids x (List.mem_of_mem_getLast? hlast)
  subst hxid
  have hle := versions_le_getLast hchain hlast
  refine ⟨_, rfl, ?_⟩
  simp only [RFCService.updateRFCContent, InMemoryRFCStorage.getById, hlat]
  simp only [InMemoryRFCStorage.update, hl, Option.getD_some]
  have hfind : l.findIdx? (fun v => v.version == x.version + 1) = none :=
    findIdx?_version_none (fun r hr => Nat.lt_succ_of_le (hle r hr))
  rw [hfind]
  have hchain2 : List.Chain' (fun a b => a.version < b.version)
      (l ++ [{ x with
               version := x.version + 1
               content := content
               updatedAt := now
               previousVersionId := some (x.id ++ "-v" ++ toString x.version) }]) := by
    rw [List.chain'_append]
    refine ⟨hchain, List.chain'_singleton _, ?_⟩
    intro a ha b hb
    simp only [List.head?_cons, Option.mem_def, Option.some_inj] at hb
    rw [hlast] at ha
    simp only [Option.mem_def, Option.some_inj] at ha
    subst ha
    subst hb
    simp
  rw [latestOf_eq_getLast hchain2, List.getLast?_concat, Option.getD_some]

/-- A sequence of `updateRFCContent` calls, threading the storage. -/
def applyUpdates (rfcId : String) (now : Nat) : Storage → List (List Char) → Storage
  | s, [] => s
  | s, c :: rest => applyUpdates rfcId now (RFCService.updateRFCContent s rfcId c now).2 rest

/-- True when every `updateRFCContent` call in the sequence succeeded. -/
def applyUpdatesOk (rfcId : String) (now : Nat) : Storage → List (List Char) → Bool
  | _, [] => true
  | s, c :: rest =>
    (RFCService.updateRFCContent s rfcId c now).1.isOk &&
      applyUpdatesOk rfcId now (RFCService.updateRFCContent s rfcId c now).2 rest

/-- Induction core for C2: starting from a well-formed version list, all
updates succeed, the final version is the initial version plus the number
of updates, old snapshots stay retrievable unchanged, and the j-th update
is retrievable at version initial+1+j with exactly its content. -/
theorem applyUpdates_spec (rfcId : String) (now : Nat) :
    ∀ (cs : List (List Char)) (s : Storage) (l : List RFC) (x : RFC),
      mapGet s.rfcs rfcId = some l →
      mapGet s.latestVersions rfcId = some x →
      (∀ r ∈ l, r.id = rfcId) →
      List.Chain' (fun a b => a.version < b.version) l →
      l.getLast? = some x →
      applyUpdatesOk rfcId now s cs = true ∧
      (∃ x2, mapGet (applyUpdates rfcId now s cs).latestVersions rfcId = some x2 ∧
        x2.version = x.version + cs.length) ∧
      (∀ k, k ≤ x.version →
        InMemoryRFCStorage.getByVersion (applyUpdates rfcId now s cs) rfcId k =
          InMemoryRFCStorage.getByVersion s rfcId k) ∧
      (∀ j, j < cs.length →
        (InMemoryRFCStorage.getByVersion (applyUpdates rfcId now s cs) rfcId
            (x.version + 1 + j)).map RFC.content = some (cs.getD j [])) := by
  intro cs
  induction cs with
  | nil =>
    intro s l x hl hlat hids hchain hlast
    refine ⟨rfl, ⟨x, ?_, by simp⟩, fun k _ => rfl, fun j hj => absurd hj (by simp)⟩
    simpa [applyUpdates] using hlat
  | cons c rest ih =>
    intro s l x hl hlat hids hchain hlast
    obtain ⟨newV, hnewV, heq⟩ := updateRFCContent_step s rfcId c now hl hlat hids hchain hlast
    have hnv : newV.version = x.version + 1 := by rw [hnewV]
    have hnc : newV.content = c := by rw [hnewV]
    have hnid : newV.id = rfcId := by
      rw [hnewV]
      exact hids x (List.mem_of_mem_getLast? hlast)
    set s1 := (RFCService.updateRFCContent s rfcId c now).2 with hs1
    have hs1eq : s1 = { s with rfcs := mapSet s.rfcs rfcId (l ++ [newV]),
                               latestVersions := mapSet s.latestVersions rfcId newV } := by
      rw [hs1, heq]
    have hl1 : mapGet s1.rfcs rfcId = some (l ++ [newV]) := by
      rw [hs1eq]
      exact mapGet_mapSet_self _ _ _
    have hlat1 : mapGet s1.latestVersions rfcId = some newV := by
      rw [hs1eq]
      exact mapGet_mapSet_self _ _ _
    have hids1 : ∀ r ∈ l ++ [newV], r.id = rfcId := by
      intro r hr
      rcases List.mem_append.mp hr with h | h
      · exact hids r h
      · simp only [List.mem_singleton] at h
        rw [h, hnid]
    have hle := versions_le_getLast hchain hlast
    have hchain1 : List.Chain' (fun a b => a.version < b.version) (l ++ [newV]) := by
      rw [List.chain'_append]
      refine ⟨hchain, List.chain'_singleton _, ?_⟩
      intro a ha b hb
      simp only [List.head?_cons, Option.mem_def, Option.some_inj] at hb
      rw [hlast] at ha
      simp only [Option.mem_def, Option.some_inj] at ha
      subst ha
      subst hb
      omega
    have hlast1 : (l ++ [newV]).getLast? = some newV := List.getLast?_concat _
    obtain ⟨hok1, ⟨x2, hx2, hx2v⟩, hpres, hnew⟩ :=
      ih s1 (l ++ [newV]) newV hl1 hlat1 hids1 hchain1 hlast1
    have hgbv1 : ∀ k, k ≤ x.version →
        InMemoryRFCStorage.getByVersion s1 rfcId k =
          InMemoryRFCStorage.getByVersion s rfcId k := by
      intro k hk
      simp only [InMemoryRFCStorage.getByVersion, hl1, hl, Option.getD_some]
      rw [List.find?_append]
      have : List.find? (fun v => v.version == k) [newV] = none := by
        simp only [List.find?_singleton]
        have : (newV.version == k) = false := by
          simp only [beq_eq_false_iff_ne, ne_eq]
          omega
        simp [this]
      rw [this, Option.or_none]
    refine ⟨?_, ⟨x2, hx2, by simpa [hx2v, hnv] using by omega⟩, ?_, ?_⟩
    · simp only [applyUpdatesOk, heq, Except.isOk, Except.toBool, Bool.true_and]
      rw [← hs1eq]
      exact hok1
    · intro k hk
      have h1 : InMemoryRFCStorage.getByVersion (applyUpdates rfcId now s (c :: rest)) rfcId k =
          InMemoryRFCStorage.getByVersion s1 rfcId k := by
        simp only [applyUpdates]
        exact hpres k (by omega)
      rw [h1, hgbv1 k hk]
    · intro j hj
      cases j with
      | zero =>
        have h1 : InMemoryRFCStorage.getByVersion (applyUpdates rfcId now s (c :: rest)) rfcId
            (x.version + 1 + 0) = InMemoryRFCStorage.getByVersion s1 rfcId (x.version + 1) := by
          simp only [applyUpdates]
          have := hpres (x.version + 1) (by omega)
          simpa using this
        rw [h1]
        simp only [InMemoryRFCStorage.getByVersion, hl1, Option.getD_some]
        rw [List.find?_append]
        have hfl : List.find? (fun v => v.version == x.version + 1) l = none := by
          rw [List.find?_eq_none]
          intro r hr
          have := hle r hr
          simp only [beq_eq_false_iff_ne, ne_eq, Bool.not_eq_true]
          omega
        rw [hfl, Option.none_or]
        have hfv : (newV.version == x.version + 1) = true := by simp [hnv]
        simp [List.find?_singleton, hfv, hnc]
      | succ j' =>
        have harith : x.version + 1 + (j' + 1) = newV.version + 1 + j' := by omega
        have h1 := hnew j' (by simpa using Nat.lt_of_succ_lt_succ hj)
        simp only [applyUpdates]
        rw [harith]
        rw [h1]
        simp

/-- C2: create a document (version 1) with fresh id, then apply any
sequence of N content updates: every call succeeds, the final version is
1 + N, and for every 1 ≤ k ≤ 1 + N, `getByVersion` returns a non-null
record whose content is exactly the content the document had at version k
(the creation content for k = 1, the (k-1)-th update's content after). -/
theorem C2_version_history (s : Storage) (newId : String) (now : Nat)
    (params : CreateRFCParams) (cs : List (List Char))
    (hfresh1 : mapGet s.rfcs newId = none)
    (ht : isBlank params.title = false)
    (hc : params.content.all Char.isWhitespace = false)
    (ha : isBlank params.author = false)
    (hu : isBlank params.requestingUser = false) :
    ∃ rfc1 : RFC,
      (RFCService.createRFC s newId now params).1 = Except.ok rfc1 ∧
      rfc1.version = 1 ∧ rfc1.content = params.content ∧
      applyUpdatesOk newId now (RFCService.createRFC s newId now params).2 cs = true ∧
      (∃ xN, mapGet (applyUpdates newId now
          (RFCService.createRFC s newId now params).2 cs).latestVersions newId = some xN ∧
        xN.version = 1 + cs.length) ∧
      (∀ k, 1 ≤ k → k ≤ 1 + cs.length →
        (InMemoryRFCStorage.getByVersion
            (applyUpdates newId now (RFCService.createRFC s newId now params).2 cs)
            newId k).map RFC.content =
          some ((params.content :: cs).getD (k - 1) [])) := by
  have hcr : RFCService.createRFC s newId now params =
      (Except.ok ({ id := newId, version := 1, status := RFCStatus.draft,
                    title := params.title, content := params.content,
                    author := params.author, requestingUser := params.requestingUser,
                    createdAt := now, updatedAt := now } : RFC),
       { s with
         rfcs := mapSet s.rfcs newId
           [{ id := newId, version := 1, status := RFCStatus.draft,
              title := params.title, content := params.content,
              author := params.author, requestingUser := params.requestingUser,
              createdAt := now, updatedAt := now }],
         latestVersions := mapSet s.latestVersions newId
           { id := newId, version := 1, status := RFCStatus.draft,
             title := params.title, content := params.content,
             author := params.author, requestingUser := params.requestingUser,
             createdAt := now, updatedAt := now } }) := by
    simp only [RFCService.createRFC, ht, hc, ha, hu, Bool.false_eq_true, if_false,
      InMemoryRFCStorage.create, hfresh1, Option.getD_none, List.nil_append]
  refine ⟨_, by rw [hcr], rfl, rfl, ?_⟩
  set rfc1 : RFC := { id := newId, version := 1, status := RFCStatus.draft,
                      title := params.title, content := params.content,
                      author := params.author, requestingUser := params.requestingUser,
                      createdAt := now, updatedAt := now } with hrfc1
  have hl : mapGet (RFCService.createRFC s newId now params).2.rfcs newId = some [rfc1] := by
    rw [hcr]
    exact mapGet_mapSet_self _ _ _
  have hlat : mapGet (RFCService.createRFC s newId now params).2.latestVersions newId =
      some rfc1 := by
    rw [hcr]
    exact mapGet_mapSet_self _ _ _
  obtain ⟨hok, ⟨xN, hxN, hxNv⟩, hpres, hnew⟩ :=
    applyUpdates_spec newId now cs (RFCService.createRFC s newId now params).2 [rfc1] rfc1
      hl hlat (by intro r hr; simp only [List.mem_singleton] at hr; rw [hr])
      (List.chain'_singleton _) rfl
  refine ⟨hok, ⟨xN, hxN, by simpa using hxNv⟩, ?_⟩
  intro k hk1 hk2
  by_cases hk : k = 1
  · subst hk
    rw [hpres 1 (by rfl)]
    simp only [InMemoryRFCStorage.getByVersion, hl, Option.getD_some]
    simp [List.find?_singleton]
  · have hj : k - 2 < cs.length := by omega
    have hg := hnew (k - 2) hj
    have harith : rfc1.version + 1 + (k - 2) = k := by
      have h1 : rfc1.version = 1 := rfl
      omega
    rw [harith] at hg
    rw [hg]
    have hk1 : k - 1 = (k - 2) + 1 := by omega
    rw [hk1, List.getD_cons_succ]

def paramsC2 : CreateRFCParams :=
  { title := "Auth RFC", content := "Use JWT tokens".toList, author := "a1",
    requestingUser := "u1" }

/-- Witness for C2: the specification's concrete scenario — one update
takes the document to version 2 while "Use JWT tokens" stays retrievable
at version 1 and the new content at version 2. -/
theorem C2_version_history_witness :
    applyUpdatesOk "r1" 0 (RFCService.createRFC Storage.empty "r1" 0 paramsC2).2
      ["Use JWT and OAuth tokens".toList] = true ∧
    (InMemoryRFCStorage.getByVersion
        (applyUpdates "r1" 0 (RFCService.createRFC Storage.empty "r1" 0 paramsC2).2
          ["Use JWT and OAuth tokens".toList]) "r1" 1).map RFC.content =
      some "Use JWT tokens".toList ∧
    (InMemoryRFCStorage.getByVersion
        (applyUpdates "r1" 0 (RFCService.createRFC Storage.empty "r1" 0 paramsC2).2
          ["Use JWT and OAuth tokens".toList]) "r1" 2).map RFC.content =
      some "Use JWT and OAuth tokens".toList := by
  obtain ⟨rfc1, hcr1, hv, hcnt, hok, hex, hK⟩ :=
    C2_version_history Storage.empty "r1" 0 paramsC2
      ["Use JWT and OAuth tokens".toList] rfl (by decide) (by decide) (by decide)
      (by decide)
  refine ⟨hok, ?_, ?_⟩
  · have := hK 1 (by omega) (by simp)
    simpa using this
  · have := hK 2 (by omega) (by simp)
    simpa using this

inductive Op where
  | createRFC (newId : String) (now : Nat) (params : CreateRFCParams)
  | updateRFCContent (rfcId : String) (content : List Char) (now : Nat)
  | updateRFCStatus (rfcId : String) (status : RFCStatus) (now : Nat)
  | replaceString (params : ReplaceStringParams) (now : Nat)
  | addComment (params : AddCommentParams) (newId : String) (now : Nat)
  | replyToComment (params : ReplyToCommentParams) (newId : String) (now : Nat)
  | resolveComment (commentId resolverId : String) (now : Nat)
  | dismissComment (commentId dismisserId : String) (now : Nat)
  | requestReview (params : RequestReviewParams) (newId : String) (now : Nat)
  | submitReview (params : SubmitReviewParams) (now : Nat)
  | markReviewInProgress (reviewRequestId agentId : String)
  | addReviewersToActiveReview (rfcId : String) (newReviewerIds : List String)
  | createAgent (newId : String) (now : Nat) (type : AgentType) (name : String)
      (capabilities : Option Capabilities)

def applyOp (s : Storage) : Op → Storage
  | Op.createRFC newId now params => (RFCService.createRFC s newId now params).2
  | Op.updateRFCContent rfcId content now =>
      (RFCService.updateRFCContent s rfcId content now).2
  | Op.updateRFCStatus rfcId status now =>
      (RFCService.updateRFCStatus s rfcId status now).2
  | Op.replaceString params now => (RFCService.replaceString s params now).2
  | Op.addComment params newId now => (CommentService.addComment s params newId now).2
  | Op.replyToComment params newId now =>
      (CommentService.replyToComment s params newId now).2
  | Op.resolveComment commentId resolverId now =>
      (CommentService.resolveComment s commentId resolverId now).2
  | Op.dismissComment commentId dismisserId now =>
      (CommentService.dismissComment s commentId dismisserId now).2
  | Op.requestReview params newId now =>
      (ReviewService.requestReview s params newId now).2
  | Op.submitReview params now => (ReviewService.submitReview s params now).2
  | Op.markReviewInProgress reviewRequestId agentId =>
      (ReviewService.markReviewInProgress s reviewRequestId agentId).2
  | Op.addReviewersToActiveReview rfcId newReviewerIds =>
      (ReviewService.addReviewersToActiveReview s rfcId newReviewerIds).2
  | Op.createAgent newId now type name capabilities =>
      (AgentService.createAgent s newId now type name capabilities).2

def FreshOk (s : Storage) : Op → Prop
  | Op.createRFC newId _ _ =>
      mapGet s.rfcs newId = none ∧ mapGet s.latestVersions newId = none
  | Op.requestReview _ newId _ => mapGet s.reviews newId = none
  | _ => True

inductive Reachable : Storage → Prop
  | init : Reachable Storage.empty
  | step {s : Storage} (op : Op) : Reachable s → FreshOk s op → Reachable (applyOp s op)

def RFCInvAt (s : Storage) (id : String) : Prop :=
  match mapGet s.rfcs id, mapGet s.latestVersions id with
  | none, none => True
  | some l, some x => (∀ r ∈ l, r.id = id) ∧
      List.Chain' (fun a b => a.version < b.version) l ∧ l.getLast? = some x
  | _, _ => False

def ReviewOk (s : Storage) (id : String) (rr : ReviewRequest) : Prop :=
  rr.id = id ∧
  id ∈ (mapGet s.rfcReviews rr.rfcId).getD [] ∧
  rr.reviewerAgentIds ≠ [] ∧
  (∀ a ∈ rr.reviewerAgentIds, (mapGet rr.reviewStatuses a).isSome) ∧
  (∀ p ∈ rr.reviewStatuses, p.1 ∈ rr.reviewerAgentIds) ∧
  rr.completedAt.isSome = allCompletedB rr.reviewStatuses

structure DomainInv (s : Storage) : Prop where
  rfcOk : ∀ id, RFCInvAt s id
  reviewOk : ∀ id rr, mapGet s.reviews id = some rr → ReviewOk s id rr
  reviewIdx : ∀ rfcId rid, rid ∈ (mapGet s.rfcReviews rfcId).getD [] →
    ∃ rr, mapGet s.reviews rid = some rr ∧ rr.rfcId = rfcId
  uniqueActive : ∀ id1 id2 rr1 rr2, mapGet s.reviews id1 = some rr1 →
    mapGet s.reviews id2 = some rr2 → rr1.rfcId = rr2.rfcId →
    rr1.completedAt = none → rr2.completedAt = none → id1 = id2

theorem inv_empty : DomainInv Storage.empty := by
  refine ⟨fun id => ?_, fun id rr h => ?_, fun rfcId rid h => ?_, fun a b c d h => ?_⟩
  · simp [RFCInvAt, Storage.empty, mapGet]
  · simp [Storage.empty, mapGet] at h
  · simp [Storage.empty, mapGet] at h
  · simp [Storage.empty, mapGet] at h

def RFCMapsEq (s s' : Storage) : Prop :=
  s'.rfcs = s.rfcs ∧ s'.latestVersions = s.latestVersions

def ReviewMapsEq (s s' : Storage) : Prop :=
  s'.reviews = s.reviews ∧ s'.rfcReviews = s.rfcReviews

theorem inv_transport {s s' : Storage} (h : DomainInv s) (h1 : RFCMapsEq s s')
    (h2 : ReviewMapsEq s s') : DomainInv s' := by
  obtain ⟨h1a, h1b⟩ := h1
  obtain ⟨h2a, h2b⟩ := h2
  refine ⟨fun id => ?_, fun id rr hrr => ?_, fun rfcId rid hrid => ?_,
    fun id1 id2 rr1 rr2 k1 k2 => ?_⟩
  · have := h.rfcOk id
    simp only [RFCInvAt, h1a, h1b] at this ⊢
    exact this
  · rw [h2a] at hrr
    have := h.reviewOk id rr hrr
    simp only [ReviewOk, h2b] at this ⊢
    exact this
  · rw [h2b] at hrid
    rw [h2a]
    exact h.reviewIdx rfcId rid hrid
  · rw [h2a] at k1 k2
    exact h.uniqueActive id1 id2 rr1 rr2 k1 k2

theorem addComment_maps (s : Storage) (params : AddCommentParams) (newId : String)
    (now : Nat) :
    RFCMapsEq s (CommentService.addComment s params newId now).2 ∧
    ReviewMapsEq s (CommentService.addComment s params newId now).2 := by
  unfold CommentService.addComment
  repeat' split
  all_goals exact ⟨⟨rfl, rfl⟩, ⟨rfl, rfl⟩⟩

theorem replyToComment_maps (s : Storage) (params : ReplyToCommentParams) (newId : String)
    (now : Nat) :
    RFCMapsEq s (CommentService.replyToComment s params newId now).2 ∧
    ReviewMapsEq s (CommentService.replyToComment s params newId now).2 := by
  unfold CommentService.replyToComment
  repeat' split
  all_goals exact ⟨⟨rfl, rfl⟩, ⟨rfl, rfl⟩⟩

theorem resolveComment_maps (s : Storage) (commentId resolverId : String) (now : Nat) :
    RFCMapsEq s (CommentService.resolveComment s commentId resolverId now).2 ∧
    ReviewMapsEq s (CommentService.resolveComment s commentId resolverId now).2 := by
  unfold CommentService.resolveComment
  repeat' split
  all_goals exact ⟨⟨rfl, rfl⟩, ⟨rfl, rfl⟩⟩

theorem dismissComment_maps (s : Storage) (commentId dismisserId : String) (now : Nat) :
    RFCMapsEq s (CommentService.dismissComment s commentId dismisserId now).2 ∧
    ReviewMapsEq s (CommentService.dismissComment s commentId dismisserId now).2 := by
  unfold CommentService.dismissComment
  repeat' split
  all_goals exact ⟨⟨rfl, rfl⟩, ⟨rfl, rfl⟩⟩

theorem createAgent_maps (s : Storage) (newId : String) (now : Nat) (type : AgentType)
    (name : String) (capabilities : Option Capabilities) :
    RFCMapsEq s (AgentService.createAgent s newId now type name capabilities).2 ∧
    ReviewMapsEq s (AgentService.createAgent s newId now type name capabilities).2 := by
  unfold AgentService.createAgent
  repeat' split
  all_goals exact ⟨⟨rfl, rfl⟩, ⟨rfl, rfl⟩⟩

theorem createComments_maps (rfcId : String) :
    ∀ (cs : List Comment) (s : Storage),
      RFCMapsEq s (createComments s rfcId cs).2 ∧
      ReviewMapsEq s (createComments s rfcId cs).2 := by
  intro cs
  induction cs with
  | nil => intro s; exact ⟨⟨rfl, rfl⟩, ⟨rfl, rfl⟩⟩
  | cons c rest ih =>
    intro s
    unfold createComments
    split
    · exact ⟨⟨rfl, rfl⟩, ⟨rfl, rfl⟩⟩
    · exact ih (InMemoryCommentStorage.create s c)

theorem createRFC_reviewMaps (s : Storage) (newId : String) (now : Nat)
    (params : CreateRFCParams) :
    ReviewMapsEq s (RFCService.createRFC s newId now params).2 := by
  unfold RFCService.createRFC
  repeat' split
  all_goals exact ⟨rfl, rfl⟩

theorem updateRFCContent_reviewMaps (s : Storage) (rfcId : String) (content : List Char)
    (now : Nat) :
    ReviewMapsEq s (RFCService.updateRFCContent s rfcId content now).2 := by
  unfold RFCService.updateRFCContent
  repeat' split
  all_goals exact ⟨rfl, rfl⟩

theorem updateRFCStatus_reviewMaps (s : Storage) (rfcId : String) (status : RFCStatus)
    (now : Nat) :
    ReviewMapsEq s (RFCService.updateRFCStatus s rfcId status now).2 := by
  unfold RFCService.updateRFCStatus
  repeat' split
  all_goals exact ⟨rfl, rfl⟩

theorem replaceString_reviewMaps (s : Storage) (params : ReplaceStringParams) (now : Nat) :
    ReviewMapsEq s (RFCService.replaceString s params now).2 := by
  unfold RFCService.replaceString
  repeat' split
  all_goals first
    | exact ⟨rfl, rfl⟩
    | exact updateRFCContent_reviewMaps _ _ _ _

theorem rfcOk_transport {s s' : Storage} (h : ∀ id, RFCInvAt s id) (h1 : RFCMapsEq s s') :
    ∀ id, RFCInvAt s' id := by
  intro id
  have := h id
  simp only [RFCInvAt, h1.1, h1.2] at this ⊢
  exact this

theorem domainInv_of_rfc {s s' : Storage} (h : DomainInv s) (h2 : ReviewMapsEq s s')
    (hrfc : ∀ id, RFCInvAt s' id) : DomainInv s' := by
  obtain ⟨h2a, h2b⟩ := h2
  refine ⟨hrfc, fun id rr hrr => ?_, fun rfcId rid hrid => ?_,
    fun id1 id2 rr1 rr2 k1 k2 => ?_⟩
  · rw [h2a] at hrr
    have := h.reviewOk id rr hrr
    simp only [ReviewOk, h2b] at this ⊢
    exact this
  · rw [h2b] at hrid
    rw [h2a]
    exact h.reviewIdx rfcId rid hrid
  · rw [h2a] at k1 k2
    exact h.uniqueActive id1 id2 rr1 rr2 k1 k2

theorem chain_concat_of_lt {l : List RFC} {x v : RFC}
    (hchain : List.Chain' (fun a b => a.version < b.version) l)
    (hlast : l.getLast? = some x) (hv : x.version < v.version) :
    List.Chain' (fun a b => a.version < b.version) (l ++ [v]) := by
  rw [List.chain'_append]
  refine ⟨hchain, List.chain'_singleton _, ?_⟩
  intro a ha b hb
  simp only [List.head?_cons, Option.mem_def, Option.some_inj] at hb
  rw [hlast] at ha
  simp only [Option.mem_def, Option.some_inj] at ha
  subst ha
  subst hb
  exact hv

theorem dropLast_lt_getLast {l : List RFC} {x : RFC}
    (hchain : List.Chain' (fun a b => a.version < b.version) l)
    (hlast : l.getLast? = some x) :
    ∀ r ∈ l.dropLast, r.version < x.version := by
  induction l with
  | nil => simp
  | cons a rest ih =>
    cases rest with
    | nil => simp
    | cons b t =>
      obtain ⟨hab, hchain'⟩ := List.chain'_cons.mp hchain
      rw [List.getLast?_cons_cons] at hlast
      have hble := versions_le_getLast hchain' hlast b (List.mem_cons_self b t)
      intro r hr
      rw [show (a :: b :: t).dropLast = a :: (b :: t).dropLast from rfl] at hr
      rcases List.mem_cons.mp hr with h | h
      · subst h
        omega
      · exact ih hchain' hlast r h

theorem chain_dropLast_concat {l : List RFC} {x v : RFC}
    (hchain : List.Chain' (fun a b => a.version < b.version) l)
    (hlast : l.getLast? = some x) (hv : v.version = x.version) :
    List.Chain' (fun a b => a.version < b.version) (l.dropLast ++ [v]) := by
  have hne : l ≠ [] := by
    intro he
    subst he
    simp at hlast
  have hdecomp : l.dropLast ++ [x] = l := by
    have h1 := List.dropLast_append_getLast hne
    have h2 : l.getLast hne = x := by
      have := List.getLast?_eq_getLast l hne
      rw [this] at hlast
      exact Option.some_inj.mp hlast
    rw [h2] at h1
    exact h1
  have hchainDL : List.Chain' (fun a b => a.version < b.version) l.dropLast := by
    rw [← hdecomp] at hchain
    exact (List.chain'_append.mp hchain).1
  have hdl := dropLast_lt_getLast hchain hlast
  rw [List.chain'_append]
  refine ⟨hchainDL, List.chain'_singleton _, ?_⟩
  intro a ha b hb
  simp only [List.head?_cons, Option.mem_def, Option.some_inj] at hb
  subst hb
  have ham : a ∈ l.dropLast := List.mem_of_mem_getLast? ha
  have := hdl a ham
  omega

theorem updateRFCStatus_step (s : Storage) (rfcId : String) (status : RFCStatus)
    (now : Nat) {l : List RFC} {x : RFC}
    (hl : mapGet s.rfcs rfcId = some l)
    (hlat : mapGet s.latestVersions rfcId = some x)
    (hids : ∀ r ∈ l, r.id = rfcId)
    (hchain : List.Chain' (fun a b => a.version < b.version) l)
    (hlast : l.getLast? = some x)
    (htr : RFCService.validateStatusTransition x.status status = true) :
    RFCService.updateRFCStatus s rfcId status now =
      (Except.ok ({ x with status := status, updatedAt := now }),
       { s with
         rfcs := mapSet s.rfcs rfcId
           (l.dropLast ++ [{ x with status := status, updatedAt := now }]),
         latestVersions := mapSet s.latestVersions rfcId
           { x with status := status, updatedAt := now } }) := by
  have hxid : x.id = rfcId := hids x (List.mem_of_mem_getLast? hlast)
  subst hxid
  simp only [RFCService.updateRFCStatus, InMemoryRFCStorage.getById, hlat, htr, if_true]
  simp only [InMemoryRFCStorage.update, hl, Option.getD_some]
  have hset := findIdx_set_last hchain hlast
    (rfl : ({ x with status := status, updatedAt := now } : RFC).version = x.version)
  rw [hset]
  have hchain2 := chain_dropLast_concat hchain hlast
    (rfl : ({ x with status := status, updatedAt := now } : RFC).version = x.version)
  rw [latestOf_eq_getLast hchain2, List.getLast?_concat, Option.getD_some]

theorem inv_updateRFCContent (s : Storage) (rfcId : String) (content : List Char)
    (now : Nat) (h : DomainInv s) :
    DomainInv (RFCService.updateRFCContent s rfcId content now).2 := by
  cases hlat : mapGet s.latestVersions rfcId with
  | none =>
    have hres : (RFCService.updateRFCContent s rfcId content now).2 = s := by
      simp [RFCService.updateRFCContent, InMemoryRFCStorage.getById, hlat]
    rw [hres]
    exact h
  | some x =>
    have hinv := h.rfcOk rfcId
    unfold RFCInvAt at hinv
    cases hl : mapGet s.rfcs rfcId with
    | none =>
      rw [hl, hlat] at hinv
      exact absurd hinv (by simp)
    | some l =>
      rw [hl, hlat] at hinv
      obtain ⟨hids, hchain, hlast⟩ := hinv
      obtain ⟨newV, hnewV, heq⟩ :=
        updateRFCContent_step s rfcId content now hl hlat hids hchain hlast
      rw [heq]
      have hnid : newV.id = rfcId := by
        rw [hnewV]
        exact hids x (List.mem_of_mem_getLast? hlast)
      have hnv : newV.version = x.version + 1 := by rw [hnewV]
      refine domainInv_of_rfc h ⟨rfl, rfl⟩ ?_
      intro id
      by_cases hid : id = rfcId
      · subst hid
        unfold RFCInvAt
        rw [show ({ s with
              rfcs := mapSet s.rfcs id (l ++ [newV]),
              latestVersions := mapSet s.latestVersions id newV } : Storage).rfcs =
            mapSet s.rfcs id (l ++ [newV]) from rfl]
        rw [show ({ s with
              rfcs := mapSet s.rfcs id (l ++ [newV]),
              latestVersions := mapSet s.latestVersions id newV } : Storage).latestVersions =
            mapSet s.latestVersions id newV from rfl]
        rw [mapGet_mapSet_self, mapGet_mapSet_self]
        refine ⟨?_, ?_, List.getLast?_concat _⟩
        · intro r hr
          rcases List.mem_append.mp hr with hr | hr
          · exact hids r hr
          · simp only [List.mem_singleton] at hr
            rw [hr, hnid]
        · exact chain_concat_of_lt hchain hlast (by omega)
      · have hold := h.rfcOk id
        unfold RFCInvAt at hold ⊢
        rw [show ({ s with
              rfcs := mapSet s.rfcs rfcId (l ++ [newV]),
              latestVersions := mapSet s.latestVersions rfcId newV } : Storage).rfcs =
            mapSet s.rfcs rfcId (l ++ [newV]) from rfl]
        rw [show ({ s with
              rfcs := mapSet s.rfcs rfcId (l ++ [newV]),
              latestVersions := mapSet s.latestVersions rfcId newV } : Storage).latestVersions =
            mapSet s.latestVersions rfcId newV from rfl]
        rw [mapGet_mapSet_ne _ _ _ _ hid, mapGet_mapSet_ne _ _ _ _ hid]
        exact hold

theorem inv_createRFC (s : Storage) (newId : String) (now : Nat)
    (params : CreateRFCParams) (h : DomainInv s)
    (hf1 : mapGet s.rfcs newId = none) (hf2 : mapGet s.latestVersions newId = none) :
    DomainInv (RFCService.createRFC s newId now params).2 := by
  unfold RFCService.createRFC
  split
  · exact h
  · split
    · exact h
    · split
      · exact h
      · split
        · exact h
        · simp only [InMemoryRFCStorage.create, hf1, Option.getD_none, List.nil_append]
          refine domainInv_of_rfc h ⟨rfl, rfl⟩ ?_
          intro id
          by_cases hid : id = newId
          · subst hid
            unfold RFCInvAt
            simp only []
            rw [mapGet_mapSet_self, mapGet_mapSet_self]
            exact ⟨by intro r hr; simp only [List.mem_singleton] at hr; rw [hr],
              List.chain'_singleton _, rfl⟩
          · have hold := h.rfcOk id
            unfold RFCInvAt at hold ⊢
            simp only []
            rw [mapGet_mapSet_ne _ _ _ _ hid, mapGet_mapSet_ne _ _ _ _ hid]
            exact hold

theorem inv_updateRFCStatus (s : Storage) (rfcId : String) (status : RFCStatus)
    (now : Nat) (h : DomainInv s) :
    DomainInv (RFCService.updateRFCStatus s rfcId status now).2 := by
  cases hlat : mapGet s.latestVersions rfcId with
  | none =>
    have hres : (RFCService.updateRFCStatus s rfcId status now).2 = s := by
      simp [RFCService.updateRFCStatus, InMemoryRFCStorage.getById, hlat]
    rw [hres]
    exact h
  | some x =>
    have hinv := h.rfcOk rfcId
    unfold RFCInvAt at hinv
    cases hl : mapGet s.rfcs rfcId with
    | none =>
      rw [hl, hlat] at hinv
      exact absurd hinv (by simp)
    | some l =>
      rw [hl, hlat] at hinv
      obtain ⟨hids, hchain, hlast⟩ := hinv
      by_cases htr : RFCService.validateStatusTransition x.status status = true
      · have heq := updateRFCStatus_step s rfcId status now hl hlat hids hchain hlast htr
        have hres : (RFCService.updateRFCStatus s rfcId status now).2 =
            { s with
              rfcs := mapSet s.rfcs rfcId
                (l.dropLast ++ [{ x with status := status, updatedAt := now }]),
              latestVersions := mapSet s.latestVersions rfcId
                { x with status := status, updatedAt := now } } := by
          rw [heq]
        rw [hres]
        have hxid : x.id = rfcId := hids x (List.mem_of_mem_getLast? hlast)
        refine domainInv_of_rfc h ⟨rfl, rfl⟩ ?_
        intro id
        by_cases hid : id = rfcId
        · subst hid
          unfold RFCInvAt
          simp only []
          rw [mapGet_mapSet_self, mapGet_mapSet_self]
          refine ⟨?_, chain_dropLast_concat hchain hlast rfl, List.getLast?_concat _⟩
          intro r hr
          rcases List.mem_append.mp hr with hr | hr
          · exact hids r (List.dropLast_subset l hr)
          · simp only [List.mem_singleton] at hr
            rw [hr]
            exact hxid
        · have hold := h.rfcOk id
          unfold RFCInvAt at hold ⊢
          simp only []
          rw [mapGet_mapSet_ne _ _ _ _ hid, mapGet_mapSet_ne _ _ _ _ hid]
          exact hold
      · have hres : (RFCService.updateRFCStatus s rfcId status now).2 = s := by
          simp only [RFCService.updateRFCStatus, InMemoryRFCStorage.getById, hlat]
          rw [if_neg htr]
        rw [hres]
        exact h

theorem inv_replaceString (s : Storage) (params : ReplaceStringParams) (now : Nat)
    (h : DomainInv s) : DomainInv (RFCService.replaceString s params now).2 := by
  unfold RFCService.replaceString
  split
  · exact h
  · split
    · exact inv_updateRFCContent _ _ _ _ h
    · exact h

theorem allCompletedB_eq_true_iff {sts : List (String × ReviewStatus)} :
    allCompletedB sts = true ↔ ∀ p ∈ sts, p.2 = ReviewStatus.completed := by
  simp [allCompletedB, List.all_eq_true]

theorem allCompletedB_false_of_mem {sts : List (String × ReviewStatus)}
    {p : String × ReviewStatus} (hp : p ∈ sts) (hne : p.2 ≠ ReviewStatus.completed) :
    allCompletedB sts = false := by
  rw [← Bool.not_eq_true, allCompletedB_eq_true_iff]
  intro hall
  exact hne (hall p hp)

theorem seed_get_isSome :
    ∀ (ids : List String) (m0 : List (String × ReviewStatus)) (a : String),
      a ∈ ids ∨ (mapGet m0 a).isSome →
      (mapGet (ids.foldl (fun acc rid => mapSet acc rid ReviewStatus.pending) m0) a).isSome := by
  intro ids
  induction ids with
  | nil =>
    intro m0 a h
    rcases h with h | h
    · simp at h
    · simpa using h
  | cons i rest ih =>
    intro m0 a h
    simp only [List.foldl_cons]
    apply ih
    rcases h with h | h
    · rcases List.mem_cons.mp h with h | h
      · right
        subst h
        simp [mapGet_mapSet_self]
      · left
        exact h
    · right
      exact mapGet_isSome_mapSet _ _ _ _ h

theorem seed_values :
    ∀ (ids : List String) (m0 : List (String × ReviewStatus)),
      (∀ p ∈ m0, p.2 = ReviewStatus.pending) →
      ∀ p ∈ ids.foldl (fun acc rid => mapSet acc rid ReviewStatus.pending) m0,
        p.2 = ReviewStatus.pending := by
  intro ids
  induction ids with
  | nil =>
    intro m0 hm0 p hp
    exact hm0 p hp
  | cons i rest ih =>
    intro m0 hm0 p hp
    simp only [List.foldl_cons] at hp
    refine ih (mapSet m0 i ReviewStatus.pending) ?_ p hp
    intro q hq
    rcases mapSet_subset hq with h | h
    · rw [h]
    · exact hm0 q h

theorem seed_keys :
    ∀ (ids : List String) (m0 : List (String × ReviewStatus)) (S : List String),
      (∀ p ∈ m0, p.1 ∈ S) → (∀ i ∈ ids, i ∈ S) →
      ∀ p ∈ ids.foldl (fun acc rid => mapSet acc rid ReviewStatus.pending) m0,
        p.1 ∈ S := by
  intro ids
  induction ids with
  | nil =>
    intro m0 S hm0 _ p hp
    exact hm0 p hp
  | cons i rest ih =>
    intro m0 S hm0 hids p hp
    simp only [List.foldl_cons] at hp
    refine ih (mapSet m0 i ReviewStatus.pending) S ?_
      (fun j hj => hids j (List.mem_cons_of_mem i hj)) p hp
    intro q hq
    rcases mapSet_subset hq with h | h
    · rw [h]
      exact hids i (List.mem_cons_self i rest)
    · exact hm0 q h

theorem getByRFC_mem_iff (s : Storage) (rfcId : String) (h : DomainInv s)
    (rr : ReviewRequest) :
    rr ∈ InMemoryReviewStorage.getByRFC s rfcId ↔
      mapGet s.reviews rr.id = some rr ∧ rr.rfcId = rfcId := by
  unfold InMemoryReviewStorage.getByRFC
  rw [mem_sortDesc, List.mem_filterMap]
  constructor
  · rintro ⟨rid, hmem, hget⟩
    obtain ⟨rr2, hget2, hrfc2⟩ := h.reviewIdx rfcId rid hmem
    have hrr2 : rr2 = rr := by
      rw [hget] at hget2
      simpa using hget2.symm
    rw [hrr2] at hrfc2
    have hidok := (h.reviewOk rid rr hget).1
    rw [hidok]
    exact ⟨hget, hrfc2⟩
  · rintro ⟨hget, hrfc⟩
    refine ⟨rr.id, ?_, hget⟩
    have := (h.reviewOk rr.id rr hget).2.1
    rw [hrfc] at this
    exact this

theorem getActive_none_iff (s : Storage) (rfcId : String) (h : DomainInv s) :
    InMemoryReviewStorage.getActiveByRFC s rfcId = none ↔
      ∀ id rr, mapGet s.reviews id = some rr → rr.rfcId = rfcId →
        rr.completedAt ≠ none := by
  unfold InMemoryReviewStorage.getActiveByRFC
  rw [List.find?_eq_none]
  constructor
  · intro hno id rr hget hrfc hcomp
    have hid : rr.id = id := (h.reviewOk id rr hget).1
    have hmem : rr ∈ InMemoryReviewStorage.getByRFC s rfcId :=
      (getByRFC_mem_iff s rfcId h rr).mpr ⟨by rw [hid]; exact hget, hrfc⟩
    have := hno rr hmem
    simp [hcomp] at this
  · intro hall rr hmem
    obtain ⟨hget, hrfc⟩ := (getByRFC_mem_iff s rfcId h rr).mp hmem
    have := hall rr.id rr hget hrfc
    have hsome : rr.completedAt.isSome = true := Option.ne_none_iff_isSome.mp this
    simp [hsome]

theorem getActive_some_spec {s : Storage} {rfcId : String} (h : DomainInv s)
    {ar : ReviewRequest}
    (hact : InMemoryReviewStorage.getActiveByRFC s rfcId = some ar) :
    mapGet s.reviews ar.id = some ar ∧ ar.rfcId = rfcId ∧ ar.completedAt = none := by
  unfold InMemoryReviewStorage.getActiveByRFC at hact
  have hmem := List.mem_of_find?_eq_some hact
  have hpred := List.find?_some hact
  obtain ⟨hget, hrfc⟩ := (getByRFC_mem_iff s rfcId h ar).mp hmem
  refine ⟨hget, hrfc, ?_⟩
  simp only [Bool.not_eq_true'] at hpred
  exact Option.not_isSome_iff_eq_none.mp (by simp [hpred])

theorem requestReview_result (s : Storage) (params : RequestReviewParams) (newId : String)
    (now : Nat) :
    (ReviewService.requestReview s params newId now).2 = s ∨
    (params.reviewerAgentIds ≠ [] ∧
     ∃ rfc, InMemoryRFCStorage.getById s params.rfcId = some rfc ∧
       InMemoryReviewStorage.getActiveByRFC s params.rfcId = none ∧
       (ReviewService.requestReview s params newId now).2 =
         InMemoryReviewStorage.create s
           { id := newId, rfcId := params.rfcId, rfcVersion := rfc.version,
             requestedBy := params.requestedBy,
             reviewerAgentIds := params.reviewerAgentIds,
             reviewStatuses := params.reviewerAgentIds.foldl
               (fun acc reviewerId => mapSet acc reviewerId ReviewStatus.pending) [],
             deadline := params.deadline, createdAt := now }) := by
  unfold ReviewService.requestReview
  split
  · exact Or.inl rfl
  · split
    · exact Or.inl rfl
    · split
      · exact Or.inl rfl
      · split
        · exact Or.inl rfl
        · split
          · exact Or.inl rfl
          · rename_i hne1 hne2 hne3 hne4 hopt rfc hrfc
            split
            · exact Or.inl rfl
            · rename_i hact
              split
              · exact Or.inl rfl
              · exact Or.inr ⟨hne3, rfc, hrfc, hact, rfl⟩

theorem inv_requestReview (s : Storage) (params : RequestReviewParams) (newId : String)
    (now : Nat) (h : DomainInv s) (hf : mapGet s.reviews newId = none) :
    DomainInv (ReviewService.requestReview s params newId now).2 := by
  rcases requestReview_result s params newId now with heq | ⟨hne, rfc, hrfc, hact, heq⟩
  · rw [heq]
    exact h
  · rw [heq]
    simp only [InMemoryReviewStorage.create]
    have hnotact := (getActive_none_iff s params.rfcId h).mp hact
    refine ⟨rfcOk_transport h.rfcOk ⟨rfl, rfl⟩, ?_, ?_, ?_⟩
    · -- reviewOk
      intro id rr hget
      simp only [] at hget
      by_cases hid : id = newId
      · subst hid
        rw [mapGet_mapSet_self] at hget
        have hrr := Option.some_inj.mp hget
        subst hrr
        refine ⟨rfl, ?_, hne, ?_, ?_, ?_⟩
        · simp only []
          rw [mapGet_mapSet_self]
          simp only [Option.getD_some]
          exact setAdd_mem_self _ _
        · intro a ha
          exact seed_get_isSome _ [] a (Or.inl ha)
        · intro p hp
          exact seed_keys _ [] _ (by simp [mapGet]) (fun i hi => hi) p hp
        · simp only [Option.isSome_none]
          obtain ⟨a, ha⟩ := List.exists_mem_of_ne_nil _ hne
          have hsome := seed_get_isSome params.reviewerAgentIds [] a (Or.inl ha)
          obtain ⟨v, hv⟩ := Option.isSome_iff_exists.mp hsome
          have hmem := mapGet_mem hv
          have hval := seed_values params.reviewerAgentIds [] (by simp [mapGet]) _ hmem
          have : allCompletedB (params.reviewerAgentIds.foldl
              (fun acc reviewerId => mapSet acc reviewerId ReviewStatus.pending) []) = false :=
            allCompletedB_false_of_mem hmem (by rw [hval]; intro hcc; cases hcc)
          rw [this]
      · rw [mapGet_mapSet_ne _ _ _ _ hid] at hget
        have hok := h.reviewOk id rr hget
        obtain ⟨hok1, hok2, hok3, hok4, hok5, hok6⟩ := hok
        refine ⟨hok1, ?_, hok3, hok4, hok5, hok6⟩
        simp only []
        by_cases hrid : rr.rfcId = params.rfcId
        · rw [hrid]
          rw [mapGet_mapSet_self]
          simp only [Option.getD_some]
          rw [hrid] at hok2
          exact setAdd_mem_of_mem _ hok2
        · rw [mapGet_mapSet_ne _ _ _ _ hrid]
          exact hok2
    · -- reviewIdx
      intro rfcId1 rid hrid
      simp only [] at hrid ⊢
      by_cases hr : rfcId1 = params.rfcId
      · subst hr
        rw [mapGet_mapSet_self] at hrid
        simp only [Option.getD_some] at hrid
        rcases setAdd_subset hrid with hmem | hnew
        · obtain ⟨rr, hget, hrfc1⟩ := h.reviewIdx params.rfcId rid hmem
          have hridne : rid ≠ newId := by
            intro hcc
            rw [hcc, hf] at hget
            cases hget
          rw [mapGet_mapSet_ne _ _ _ _ hridne]
          exact ⟨rr, hget, hrfc1⟩
        · subst hnew
          rw [mapGet_mapSet_self]
          exact ⟨_, rfl, rfl⟩
      · rw [mapGet_mapSet_ne _ _ _ _ hr] at hrid
        obtain ⟨rr, hget, hrfc1⟩ := h.reviewIdx rfcId1 rid hrid
        have hridne : rid ≠ newId := by
          intro hcc
          rw [hcc, hf] at hget
          cases hget
        rw [mapGet_mapSet_ne _ _ _ _ hridne]
        exact ⟨rr, hget, hrfc1⟩
    · -- uniqueActive
      intro id1 id2 rr1 rr2 k1 k2 hrfceq hc1 hc2
      simp only [] at k1 k2
      by_cases h1 : id1 = newId <;> by_cases h2 : id2 = newId
      · rw [h1, h2]
      · exfalso
        subst h1
        rw [mapGet_mapSet_self] at k1
        rw [mapGet_mapSet_ne _ _ _ _ h2] at k2
        have hlit := Option.some_inj.mp k1
        have hrr1 : rr1.rfcId = params.rfcId := by
          rw [← hlit]
        exact hnotact id2 rr2 k2 (by rw [← hrfceq, hrr1]) hc2
      · exfalso
        subst h2
        rw [mapGet_mapSet_self] at k2
        rw [mapGet_mapSet_ne _ _ _ _ h1] at k1
        have hlit := Option.some_inj.mp k2
        have hrr2 : rr2.rfcId = params.rfcId := by
          rw [← hlit]
        exact hnotact id1 rr1 k1 (by rw [hrfceq, hrr2]) hc1
      · rw [mapGet_mapSet_ne _ _ _ _ h1] at k1
        rw [mapGet_mapSet_ne _ _ _ _ h2] at k2
        exact h.uniqueActive id1 id2 rr1 rr2 k1 k2 hrfceq hc1 hc2

theorem submitReview_result (s : Storage) (params : SubmitReviewParams) (now : Nat) :
    (ReviewService.submitReview s params now).2 = s ∨
    (∃ rr, mapGet s.reviews params.reviewRequestId = some rr ∧
      ((∃ e s1, createComments s rr.rfcId params.comments = (Except.error e, s1) ∧
         (ReviewService.submitReview s params now).2 = s1) ∨
       (rr.completedAt = none ∧ params.agentId ∈ rr.reviewerAgentIds ∧
        (ReviewService.submitReview s params now).2 =
          InMemoryReviewStorage.update (createComments s rr.rfcId params.comments).2
            { rr with
              reviewStatuses := mapSet rr.reviewStatuses params.agentId
                ReviewStatus.completed,
              completedAt :=
                if allCompletedB (mapSet rr.reviewStatuses params.agentId
                    ReviewStatus.completed) then some now else none }))) := by
  unfold ReviewService.submitReview
  split
  · exact Or.inl rfl
  · split
    · exact Or.inl rfl
    · split
      · exact Or.inl rfl
      · rename_i hb1 hb2 hopt rr hget
        split
        · exact Or.inl rfl
        · split
          · exact Or.inl rfl
          · split
            · exact Or.inl rfl
            · split
              · exact Or.inl rfl
              · rename_i hcomp hcont hstat hdl
                have hcompn : rr.completedAt = none :=
                  Option.not_isSome_iff_eq_none.mp (by simpa using hcomp)
                have hmem : params.agentId ∈ rr.reviewerAgentIds := by
                  have hcont2 : rr.reviewerAgentIds.contains params.agentId = true := by
                    cases hc : rr.reviewerAgentIds.contains params.agentId
                    · rw [hc] at hcont
                      simp at hcont
                    · rfl
                  exact List.elem_iff.mp hcont2
                split
                · rename_i e s1 heq2
                  exact Or.inr ⟨rr, hget, Or.inl ⟨e, s1, heq2, rfl⟩⟩
                · rename_i u s1 heq2
                  refine Or.inr ⟨rr, hget, Or.inr ⟨hcompn, hmem, ?_⟩⟩
                  simp only [heq2, hcompn]

theorem mapGet_value_of_all {sts : List (String × ReviewStatus)} {a : String}
    {v : ReviewStatus} (hget : mapGet sts a = some v)
    (hall : ∀ p ∈ sts, p.2 = ReviewStatus.completed) : v = ReviewStatus.completed :=
  hall (a, v) (mapGet_mem hget)

theorem inv_submitReview (s : Storage) (params : SubmitReviewParams) (now : Nat)
    (h : DomainInv s) : DomainInv (ReviewService.submitReview s params now).2 := by
  rcases submitReview_result s params now with heq | ⟨rr, hget, hcase⟩
  · rw [heq]
    exact h
  · rcases hcase with ⟨e, s1, hcc, heq⟩ | ⟨hcompn, hmem, heq⟩
    · rw [heq]
      have hmaps := createComments_maps rr.rfcId params.comments s
      rw [hcc] at hmaps
      exact inv_transport h hmaps.1 hmaps.2
    · rw [heq]
      obtain ⟨⟨hm1, hm2⟩, hm3, hm4⟩ := createComments_maps rr.rfcId params.comments s
      obtain ⟨hid, hidx, hne, hcov, hkeys, hcpl⟩ := h.reviewOk params.reviewRequestId rr hget
      set rrN : ReviewRequest :=
        { rr with
          reviewStatuses := mapSet rr.reviewStatuses params.agentId ReviewStatus.completed,
          completedAt :=
            if allCompletedB (mapSet rr.reviewStatuses params.agentId ReviewStatus.completed)
            then some now else none } with hrrN
      have hrnid : rrN.id = rr.id := by rw [hrrN]
      have hrnrfc : rrN.rfcId = rr.rfcId := by rw [hrrN]
      have hrnrev : rrN.reviewerAgentIds = rr.reviewerAgentIds := by rw [hrrN]
      have hrnsts : rrN.reviewStatuses =
          mapSet rr.reviewStatuses params.agentId ReviewStatus.completed := by rw [hrrN]
      have hrncomp : rrN.completedAt.isSome = allCompletedB rrN.reviewStatuses := by
        rw [hrrN]
        by_cases hall : allCompletedB
            (mapSet rr.reviewStatuses params.agentId ReviewStatus.completed) = true
        · simp [hall]
        · simp only [Bool.not_eq_true] at hall
          simp [hall]
      have hgetr : mapGet s.reviews rr.id = some rr := by
        rw [hid]
        exact hget
      simp only [InMemoryReviewStorage.update, hm3, hm4, hm1, hm2]
      refine ⟨?_, ?_, ?_, ?_⟩
      · intro id
        have := h.rfcOk id
        simp only [RFCInvAt] at this ⊢
        exact this
      · intro id rr0 hget0
        simp only [hrnid] at hget0
        by_cases hi : id = rr.id
        · subst hi
          rw [mapGet_mapSet_self] at hget0
          have hrr0 := Option.some_inj.mp hget0
          rw [← hrr0]
          refine ⟨hrnid, ?_, ?_, ?_, ?_, hrncomp⟩
          · rw [hrnrfc, hid]
            exact hidx
          · rw [hrnrev]
            exact hne
          · rw [hrnrev, hrnsts]
            intro a ha
            exact mapGet_isSome_mapSet _ _ _ _ (hcov a ha)
          · rw [hrnrev, hrnsts]
            intro p hp
            rcases mapSet_subset hp with hp | hp
            · rw [hp]
              exact hmem
            · exact hkeys p hp
        · rw [mapGet_mapSet_ne _ _ _ _ hi] at hget0
          exact h.reviewOk id rr0 hget0
      · intro rfcId1 rid hrid
        obtain ⟨rr0, hget0, hrfc0⟩ := h.reviewIdx rfcId1 rid hrid
        simp only [hrnid]
        by_cases hi : rid = rr.id
        · subst hi
          rw [mapGet_mapSet_self]
          refine ⟨rrN, rfl, ?_⟩
          have hrr0 : rr0 = rr := Option.some_inj.mp (hget0.symm.trans hgetr)
          rw [hrnrfc, ← hrr0]
          exact hrfc0
        · rw [mapGet_mapSet_ne _ _ _ _ hi]
          exact ⟨rr0, hget0, hrfc0⟩
      · intro id1 id2 rr1 rr2 k1 k2 hrfceq hc1 hc2
        simp only [hrnid] at k1 k2
        by_cases h1 : id1 = rr.id <;> by_cases h2 : id2 = rr.id
        · rw [h1, h2]
        · exfalso
          subst h1
          rw [mapGet_mapSet_self] at k1
          rw [mapGet_mapSet_ne _ _ _ _ h2] at k2
          have hrr1 := Option.some_inj.mp k1
          have hrfc2 : rr2.rfcId = rr.rfcId := by
            rw [← hrfceq, ← hrr1, hrnrfc]
          have := h.uniqueActive id2 params.reviewRequestId rr2 rr k2 hget hrfc2 hc2 hcompn
          rw [← hid] at this
          exact h2 this
        · exfalso
          subst h2
          rw [mapGet_mapSet_self] at k2
          rw [mapGet_mapSet_ne _ _ _ _ h1] at k1
          have hrr2 := Option.some_inj.mp k2
          have hrfc1 : rr1.rfcId = rr.rfcId := by
            rw [hrfceq, ← hrr2, hrnrfc]
          have := h.uniqueActive id1 params.reviewRequestId rr1 rr k1 hget hrfc1 hc1 hcompn
          rw [← hid] at this
          exact h1 this
        · rw [mapGet_mapSet_ne _ _ _ _ h1] at k1
          rw [mapGet_mapSet_ne _ _ _ _ h2] at k2
          exact h.uniqueActive id1 id2 rr1 rr2 k1 k2 hrfceq hc1 hc2

theorem markReview_result (s : Storage) (reviewRequestId agentId : String) :
    (ReviewService.markReviewInProgress s reviewRequestId agentId).2 = s ∨
    (∃ rr, mapGet s.reviews reviewRequestId = some rr ∧
      agentId ∈ rr.reviewerAgentIds ∧
      mapGet rr.reviewStatuses agentId ≠ some ReviewStatus.completed ∧
      (ReviewService.markReviewInProgress s reviewRequestId agentId).2 =
        InMemoryReviewStorage.update s
          { rr with
            reviewStatuses := mapSet rr.reviewStatuses agentId ReviewStatus.in_progress }) := by
  unfold ReviewService.markReviewInProgress
  split
  · exact Or.inl rfl
  · rename_i hopt rr hget
    split
    · exact Or.inl rfl
    · split
      · exact Or.inl rfl
      · rename_i hcont hstat
        have hmem : agentId ∈ rr.reviewerAgentIds := by
          have hcont2 : rr.reviewerAgentIds.contains agentId = true := by
            cases hc : rr.reviewerAgentIds.contains agentId
            · rw [hc] at hcont
              simp at hcont
            · rfl
          exact List.elem_iff.mp hcont2
        exact Or.inr ⟨rr, hget, hmem, hstat, rfl⟩

theorem inv_markReviewInProgress (s : Storage) (reviewRequestId agentId : String)
    (h : DomainInv s) :
    DomainInv (ReviewService.markReviewInProgress s reviewRequestId agentId).2 := by
  rcases markReview_result s reviewRequestId agentId with heq | ⟨rr, hget, hmem, hstat, heq⟩
  · rw [heq]
    exact h
  · rw [heq]
    obtain ⟨hid, hidx, hne, hcov, hkeys, hcpl⟩ := h.reviewOk reviewRequestId rr hget
    set rrN : ReviewRequest :=
      { rr with
        reviewStatuses := mapSet rr.reviewStatuses agentId ReviewStatus.in_progress }
      with hrrN
    have hrnid : rrN.id = rr.id := by rw [hrrN]
    have hrnrfc : rrN.rfcId = rr.rfcId := by rw [hrrN]
    have hrnrev : rrN.reviewerAgentIds = rr.reviewerAgentIds := by rw [hrrN]
    have hrnsts : rrN.reviewStatuses =
        mapSet rr.reviewStatuses agentId ReviewStatus.in_progress := by rw [hrrN]
    have hrncompval : rrN.completedAt = rr.completedAt := by rw [hrrN]
    have hgetr : mapGet s.reviews rr.id = some rr := by
      rw [hid]
      exact hget
    -- the review cannot already be complete: its reviewer's status is not completed
    have hcompn : rr.completedAt = none := by
      cases hcompv : rr.completedAt with
      | none => rfl
      | some t =>
        exfalso
        have hsome : rr.completedAt.isSome = true := by simp [hcompv]
        rw [hcpl] at hsome
        have hall := allCompletedB_eq_true_iff.mp hsome
        obtain ⟨v, hv⟩ := Option.isSome_iff_exists.mp (hcov agentId hmem)
        exact hstat (by rw [hv, mapGet_value_of_all hv hall])
    have hrncomp : rrN.completedAt.isSome = allCompletedB rrN.reviewStatuses := by
      rw [hrncompval, hcompn, hrnsts]
      have hmemN : (agentId, ReviewStatus.in_progress) ∈
          mapSet rr.reviewStatuses agentId ReviewStatus.in_progress :=
        mapGet_mem (mapGet_mapSet_self _ _ _)
      rw [allCompletedB_false_of_mem hmemN (by intro hcc; cases hcc)]
      rfl
    simp only [InMemoryReviewStorage.update]
    refine ⟨?_, ?_, ?_, ?_⟩
    · intro id
      have := h.rfcOk id
      simp only [RFCInvAt] at this ⊢
      exact this
    · intro id rr0 hget0
      simp only [hrnid] at hget0
      by_cases hi : id = rr.id
      · subst hi
        rw [mapGet_mapSet_self] at hget0
        rw [← Option.some_inj.mp hget0]
        refine ⟨hrnid, ?_, ?_, ?_, ?_, hrncomp⟩
        · rw [hrnrfc, hid]
          exact hidx
        · rw [hrnrev]
          exact hne
        · rw [hrnrev, hrnsts]
          intro a ha
          exact mapGet_isSome_mapSet _ _ _ _ (hcov a ha)
        · rw [hrnrev, hrnsts]
          intro p hp
          rcases mapSet_subset hp with hp | hp
          · rw [hp]
            exact hmem
          · exact hkeys p hp
      · rw [mapGet_mapSet_ne _ _ _ _ hi] at hget0
        exact h.reviewOk id rr0 hget0
    · intro rfcId1 rid hrid
      obtain ⟨rr0, hget0, hrfc0⟩ := h.reviewIdx rfcId1 rid hrid
      simp only [hrnid]
      by_cases hi : rid = rr.id
      · subst hi
        rw [mapGet_mapSet_self]
        refine ⟨rrN, rfl, ?_⟩
        have hrr0 : rr0 = rr := Option.some_inj.mp (hget0.symm.trans hgetr)
        rw [hrnrfc, ← hrr0]
        exact hrfc0
      · rw [mapGet_mapSet_ne _ _ _ _ hi]
        exact ⟨rr0, hget0, hrfc0⟩
    · intro id1 id2 rr1 rr2 k1 k2 hrfceq hc1 hc2
      simp only [hrnid] at k1 k2
      by_cases h1 : id1 = rr.id <;> by_cases h2 : id2 = rr.id
      · rw [h1, h2]
      · exfalso
        subst h1
        rw [mapGet_mapSet_self] at k1
        rw [mapGet_mapSet_ne _ _ _ _ h2] at k2
        have hrr1 := Option.some_inj.mp k1
        have hrfc2 : rr2.rfcId = rr.rfcId := by
          rw [← hrfceq, ← hrr1, hrnrfc]
        have := h.uniqueActive id2 reviewRequestId rr2 rr k2 hget hrfc2 hc2 hcompn
        rw [← hid] at this
        exact h2 this
      · exfalso
        subst h2
        rw [mapGet_mapSet_self] at k2
        rw [mapGet_mapSet_ne _ _ _ _ h1] at k1
        have hrr2 := Option.some_inj.mp k2
        have hrfc1 : rr1.rfcId = rr.rfcId := by
          rw [hrfceq, ← hrr2, hrnrfc]
        have := h.uniqueActive id1 reviewRequestId rr1 rr k1 hget hrfc1 hc1 hcompn
        rw [← hid] at this
        exact h1 this
      · rw [mapGet_mapSet_ne _ _ _ _ h1] at k1
        rw [mapGet_mapSet_ne _ _ _ _ h2] at k2
        exact h.uniqueActive id1 id2 rr1 rr2 k1 k2 hrfceq hc1 hc2

theorem addReviewersGo_ok (s : Storage) :
    ∀ (ids : List String) (rr r : ReviewRequest),
      (addReviewersGo s rr ids).1 = Except.ok r → (addReviewersGo s rr ids).2 = r := by
  intro ids
  induction ids with
  | nil =>
    intro rr r h
    simp only [addReviewersGo] at h ⊢
    simpa using h
  | cons rid rest ih =>
    intro rr r h
    simp only [addReviewersGo] at h ⊢
    by_cases hc : rr.reviewerAgentIds.contains rid = true
    · rw [if_pos hc] at h ⊢
      exact ih rr r h
    · rw [if_neg hc] at h ⊢
      cases hagent : InMemoryAgentStorage.getById s rid with
      | none =>
        simp only [hagent] at h
        simp at h
      | some agent =>
        simp only [hagent] at h ⊢
        by_cases hcap : (!agent.capabilities.canComment) = true
        · rw [if_pos hcap] at h
          simp at h
        · rw [if_neg hcap] at h ⊢
          exact ih _ r h

theorem addReviewersGo_spec (s : Storage) :
    ∀ (ids : List String) (rr : ReviewRequest),
      (addReviewersGo s rr ids).2.id = rr.id ∧
      (addReviewersGo s rr ids).2.rfcId = rr.rfcId ∧
      (addReviewersGo s rr ids).2.completedAt = rr.completedAt ∧
      (rr.reviewerAgentIds ≠ [] → (addReviewersGo s rr ids).2.reviewerAgentIds ≠ []) ∧
      ((∀ a ∈ rr.reviewerAgentIds, (mapGet rr.reviewStatuses a).isSome) →
        ∀ a ∈ (addReviewersGo s rr ids).2.reviewerAgentIds,
          (mapGet (addReviewersGo s rr ids).2.reviewStatuses a).isSome) ∧
      ((∀ p ∈ rr.reviewStatuses, p.1 ∈ rr.reviewerAgentIds) →
        (∀ p ∈ (addReviewersGo s rr ids).2.reviewStatuses,
          p.1 ∈ (addReviewersGo s rr ids).2.reviewerAgentIds) ∧
        (∀ q ∈ rr.reviewStatuses, q ∈ (addReviewersGo s rr ids).2.reviewStatuses)) := by
  intro ids
  induction ids with
  | nil =>
    intro rr
    exact ⟨rfl, rfl, rfl, fun h => h, fun h => h, fun h => ⟨h, fun q hq => hq⟩⟩
  | cons rid rest ih =>
    intro rr
    simp only [addReviewersGo]
    split
    · exact ih rr
    · split
      · exact ⟨rfl, rfl, rfl, fun h => h, fun h => h, fun h => ⟨h, fun q hq => hq⟩⟩
      · split
        · exact ⟨rfl, rfl, rfl, fun h => h, fun h => h, fun h => ⟨h, fun q hq => hq⟩⟩
        · rename_i hnc hopt2 agent hagent hcap
          have hnotmem : rid ∉ rr.reviewerAgentIds := by
            intro hcc
            exact hnc (List.elem_iff.mpr hcc)
          obtain ⟨g1, g2, g3, g4, g5, g6⟩ := ih
            { rr with
              reviewerAgentIds := rr.reviewerAgentIds ++ [rid],
              reviewStatuses := mapSet rr.reviewStatuses rid ReviewStatus.pending }
          refine ⟨g1, g2, g3, fun _ => g4 (by simp), ?_, ?_⟩
          · intro hcov
            refine g5 ?_
            intro a ha
            simp only [List.mem_append, List.mem_singleton] at ha
            rcases ha with ha | ha
            · exact mapGet_isSome_mapSet _ _ _ _ (hcov a ha)
            · subst ha
              rw [mapGet_mapSet_self]
              rfl
          · intro hkeys
            have hfresh : mapGet rr.reviewStatuses rid = none := by
              cases hg : mapGet rr.reviewStatuses rid with
              | none => rfl
              | some v =>
                exact absurd (hkeys (rid, v) (mapGet_mem hg)) hnotmem
            have happend : mapSet rr.reviewStatuses rid ReviewStatus.pending =
                rr.reviewStatuses ++ [(rid, ReviewStatus.pending)] :=
              mapSet_of_get_none _ hfresh
            have hkeys2 : ∀ p ∈ mapSet rr.reviewStatuses rid ReviewStatus.pending,
                p.1 ∈ rr.reviewerAgentIds ++ [rid] := by
              intro p hp
              rcases mapSet_subset hp with hp | hp
              · rw [hp]
                simp
              · simp only [List.mem_append]
                exact Or.inl (hkeys p hp)
            obtain ⟨k1, k2⟩ := g6 hkeys2
            refine ⟨k1, ?_⟩
            intro q hq
            refine k2 q ?_
            rw [happend]
            exact List.mem_append_left _ hq

theorem addReviewers_result (s : Storage) (rfcId : String) (newReviewerIds : List String) :
    (ReviewService.addReviewersToActiveReview s rfcId newReviewerIds).2 = s ∨
    ∃ ar, InMemoryReviewStorage.getActiveByRFC s rfcId = some ar ∧
      (ReviewService.addReviewersToActiveReview s rfcId newReviewerIds).2 =
        InMemoryReviewStorage.update s (addReviewersGo s ar newReviewerIds).2 := by
  unfold ReviewService.addReviewersToActiveReview
  split
  · exact Or.inl rfl
  · rename_i hopt ar hact
    split
    · rename_i r x hgo
      refine Or.inr ⟨ar, hact, ?_⟩
      have h1 : (addReviewersGo s ar newReviewerIds).1 = Except.ok r := by
        rw [hgo]
      have h2 := addReviewersGo_ok s newReviewerIds ar r h1
      simp only [h2]
    · rename_i e r hgo
      refine Or.inr ⟨ar, hact, ?_⟩
      have h2 : (addReviewersGo s ar newReviewerIds).2 = r := by
        rw [hgo]
      simp only [h2]

theorem allCompletedB_false_exists {sts : List (String × ReviewStatus)}
    (h : allCompletedB sts = false) : ∃ p ∈ sts, p.2 ≠ ReviewStatus.completed := by
  by_contra hc
  push_neg at hc
  rw [← Bool.not_eq_true, allCompletedB_eq_true_iff] at h
  exact h hc

theorem inv_addReviewers (s : Storage) (rfcId : String) (newReviewerIds : List String)
    (h : DomainInv s) :
    DomainInv (ReviewService.addReviewersToActiveReview s rfcId newReviewerIds).2 := by
  rcases addReviewers_result s rfcId newReviewerIds with heq | ⟨ar, hact, heq⟩
  · rw [heq]
    exact h
  · rw [heq]
    obtain ⟨hgetar, harfc, hacomp⟩ := getActive_some_spec h hact
    obtain ⟨_, hidx, hne, hcov, hkeys, hcpl⟩ := h.reviewOk ar.id ar hgetar
    obtain ⟨g1, g2, g3, g4, g5, g6⟩ := addReviewersGo_spec s newReviewerIds ar
    obtain ⟨gk, gmem⟩ := g6 hkeys
    set rN : ReviewRequest := (addReviewersGo s ar newReviewerIds).2 with hrN
    have hcplfalse : allCompletedB ar.reviewStatuses = false := by
      rw [← hcpl, hacomp]
      rfl
    obtain ⟨p0, hp0mem, hp0ne⟩ := allCompletedB_false_exists hcplfalse
    have hcplN : rN.completedAt.isSome = allCompletedB rN.reviewStatuses := by
      rw [g3, hacomp]
      rw [allCompletedB_false_of_mem (gmem p0 hp0mem) hp0ne]
      rfl
    have hcompN : rN.completedAt = none := by
      rw [g3, hacomp]
    simp only [InMemoryReviewStorage.update]
    refine ⟨?_, ?_, ?_, ?_⟩
    · intro id
      have := h.rfcOk id
      simp only [RFCInvAt] at this ⊢
      exact this
    · intro id rr0 hget0
      simp only [g1] at hget0
      by_cases hi : id = ar.id
      · subst hi
        rw [mapGet_mapSet_self] at hget0
        rw [← Option.some_inj.mp hget0]
        refine ⟨g1, ?_, g4 hne, g5 hcov, gk, hcplN⟩
        rw [g2]
        exact hidx
      · rw [mapGet_mapSet_ne _ _ _ _ hi] at hget0
        exact h.reviewOk id rr0 hget0
    · intro rfcId1 rid hrid
      obtain ⟨rr0, hget0, hrfc0⟩ := h.reviewIdx rfcId1 rid hrid
      simp only [g1]
      by_cases hi : rid = ar.id
      · subst hi
        rw [mapGet_mapSet_self]
        refine ⟨rN, rfl, ?_⟩
        have hrr0 : rr0 = ar := Option.some_inj.mp (hget0.symm.trans hgetar)
        rw [g2, ← hrr0]
        exact hrfc0
      · rw [mapGet_mapSet_ne _ _ _ _ hi]
        exact ⟨rr0, hget0, hrfc0⟩
    · intro id1 id2 rr1 rr2 k1 k2 hrfceq hc1 hc2
      simp only [g1] at k1 k2
      by_cases h1 : id1 = ar.id <;> by_cases h2 : id2 = ar.id
      · rw [h1, h2]
      · exfalso
        subst h1
        rw [mapGet_mapSet_self] at k1
        rw [mapGet_mapSet_ne _ _ _ _ h2] at k2
        have hrr1 := Option.some_inj.mp k1
        have hrfc2 : rr2.rfcId = ar.rfcId := by
          rw [← hrfceq, ← hrr1, g2]
        exact h2 (h.uniqueActive id2 ar.id rr2 ar k2 hgetar hrfc2 hc2 hacomp)
      · exfalso
        subst h2
        rw [mapGet_mapSet_self] at k2
        rw [mapGet_mapSet_ne _ _ _ _ h1] at k1
        have hrr2 := Option.some_inj.mp k2
        have hrfc1 : rr1.rfcId = ar.rfcId := by
          rw [hrfceq, ← hrr2, g2]
        exact h1 (h.uniqueActive id1 ar.id rr1 ar k1 hgetar hrfc1 hc1 hacomp)
      · rw [mapGet_mapSet_ne _ _ _ _ h1] at k1
        rw [mapGet_mapSet_ne _ _ _ _ h2] at k2
        exact h.uniqueActive id1 id2 rr1 rr2 k1 k2 hrfceq hc1 hc2

theorem inv_applyOp {s : Storage} (op : Op) (h : DomainInv s) (hf : FreshOk s op) :
    DomainInv (applyOp s op) := by
  cases op with
  | createRFC newId now params =>
      exact inv_createRFC s newId now params h hf.1 hf.2
  | updateRFCContent rfcId content now => exact inv_updateRFCContent s rfcId content now h
  | updateRFCStatus rfcId status now => exact inv_updateRFCStatus s rfcId status now h
  | replaceString params now => exact inv_replaceString s params now h
  | addComment params newId now =>
      exact inv_transport h (addComment_maps s params newId now).1
        (addComment_maps s params newId now).2
  | replyToComment params newId now =>
      exact inv_transport h (replyToComment_maps s params newId now).1
        (replyToComment_maps s params newId now).2
  | resolveComment commentId resolverId now =>
      exact inv_transport h (resolveComment_maps s commentId resolverId now).1
        (resolveComment_maps s commentId resolverId now).2
  | dismissComment commentId dismisserId now =>
      exact inv_transport h (dismissComment_maps s commentId dismisserId now).1
        (dismissComment_maps s commentId dismisserId now).2
  | requestReview params newId now => exact inv_requestReview s params newId now h hf
  | submitReview params now => exact inv_submitReview s params now h
  | markReviewInProgress reviewRequestId agentId =>
      exact inv_markReviewInProgress s reviewRequestId agentId h
  | addReviewersToActiveReview rfcId newReviewerIds =>
      exact inv_addReviewers s rfcId newReviewerIds h
  | createAgent newId now type name capabilities =>
      exact inv_transport h (createAgent_maps s newId now type name capabilities).1
        (createAgent_maps s newId now type name capabilities).2

theorem reachable_inv {s : Storage} (h : Reachable s) : DomainInv s := by
  induction h with
  | init => exact inv_empty
  | step op _ hf ih => exact inv_applyOp op ih hf

theorem completed_frozen {s : Storage} (op : Op) (h : DomainInv s) (hf : FreshOk s op)
    {id : String} {rr : ReviewRequest} (hget : mapGet s.reviews id = some rr)
    (hcomp : rr.completedAt.isSome = true) :
    mapGet (applyOp s op).reviews id = some rr := by
  cases op with
  | createRFC newId now params =>
      simp only [applyOp]
      rw [(createRFC_reviewMaps s newId now params).1]
      exact hget
  | updateRFCContent rfcId content now =>
      simp only [applyOp]
      rw [(updateRFCContent_reviewMaps s rfcId content now).1]
      exact hget
  | updateRFCStatus rfcId status now =>
      simp only [applyOp]
      rw [(updateRFCStatus_reviewMaps s rfcId status now).1]
      exact hget
  | replaceString params now =>
      simp only [applyOp]
      rw [(replaceString_reviewMaps s params now).1]
      exact hget
  | addComment params newId now =>
      simp only [applyOp]
      rw [(addComment_maps s params newId now).2.1]
      exact hget
  | replyToComment params newId now =>
      simp only [applyOp]
      rw [(replyToComment_maps s params newId now).2.1]
      exact hget
  | resolveComment commentId resolverId now =>
      simp only [applyOp]
      rw [(resolveComment_maps s commentId resolverId now).2.1]
      exact hget
  | dismissComment commentId dismisserId now =>
      simp only [applyOp]
      rw [(dismissComment_maps s commentId dismisserId now).2.1]
      exact hget
  | createAgent newId now type name capabilities =>
      simp only [applyOp]
      rw [(createAgent_maps s newId now type name capabilities).2.1]
      exact hget
  | requestReview params newId now =>
      rcases requestReview_result s params newId now with heq | ⟨_, rfc, _, _, heq⟩
      · rw [show (applyOp s (Op.requestReview params newId now)) =
            (ReviewService.requestReview s params newId now).2 from rfl, heq]
        exact hget
      · have hne : id ≠ newId := by
          intro he
          rw [he, hf] at hget
          exact Option.noConfusion hget
        rw [show (applyOp s (Op.requestReview params newId now)) =
            (ReviewService.requestReview s params newId now).2 from rfl, heq]
        simp only [InMemoryReviewStorage.create]
        rw [mapGet_mapSet_ne _ _ _ _ hne]
        exact hget
  | submitReview params now =>
      rcases submitReview_result s params now with heq | ⟨rr0, hget0, hcase⟩
      · rw [show (applyOp s (Op.submitReview params now)) =
            (ReviewService.submitReview s params now).2 from rfl, heq]
        exact hget
      · rcases hcase with ⟨e, s1, hcc, heq⟩ | ⟨hc0, _, heq⟩
        · have hs1 : s1 = (createComments s rr0.rfcId params.comments).2 := by
            rw [hcc]
          rw [show (applyOp s (Op.submitReview params now)) =
              (ReviewService.submitReview s params now).2 from rfl, heq, hs1,
            (createComments_maps rr0.rfcId params.comments s).2.1]
          exact hget
        · have hid0 : rr0.id = params.reviewRequestId := (h.reviewOk _ rr0 hget0).1
          have hne : id ≠ rr0.id := by
            intro he
            rw [he, hid0] at hget
            have : rr = rr0 := Option.some_inj.mp (hget.symm.trans hget0)
            rw [this, hc0] at hcomp
            exact Bool.noConfusion hcomp
          rw [show (applyOp s (Op.submitReview params now)) =
              (ReviewService.submitReview s params now).2 from rfl, heq]
          simp only [InMemoryReviewStorage.update]
          rw [mapGet_mapSet_ne _ _ _ _ hne,
            (createComments_maps rr0.rfcId params.comments s).2.1]
          exact hget
  | markReviewInProgress reviewRequestId agentId =>
      rcases markReview_result s reviewRequestId agentId with heq | ⟨rr0, hget0, hmem, hstat, heq⟩
      · rw [show (applyOp s (Op.markReviewInProgress reviewRequestId agentId)) =
            (ReviewService.markReviewInProgress s reviewRequestId agentId).2 from rfl, heq]
        exact hget
      · have hid0 : rr0.id = reviewRequestId := (h.reviewOk _ rr0 hget0).1
        have hne : id ≠ rr0.id := by
          intro he
          rw [he, hid0] at hget
          have hrr : rr = rr0 := Option.some_inj.mp (hget.symm.trans hget0)
          obtain ⟨_, _, _, hcov, _, hcpl⟩ := h.reviewOk _ rr0 hget0
          have hall : allCompletedB rr0.reviewStatuses = true := by
            rw [← hcpl, ← hrr]
            exact hcomp
          obtain ⟨v, hv⟩ := Option.isSome_iff_exists.mp (hcov agentId hmem)
          have hvmem := mapGet_mem hv
          have hvcomp : v = ReviewStatus.completed :=
            (allCompletedB_eq_true_iff.mp hall) (agentId, v) hvmem
          rw [hvcomp] at hv
          exact hstat hv
        rw [show (applyOp s (Op.markReviewInProgress reviewRequestId agentId)) =
            (ReviewService.markReviewInProgress s reviewRequestId agentId).2 from rfl, heq]
        simp only [InMemoryReviewStorage.update]
        rw [mapGet_mapSet_ne _ _ _ _ hne]
        exact hget
  | addReviewersToActiveReview rfcId newReviewerIds =>
      rcases addReviewers_result s rfcId newReviewerIds with heq | ⟨ar, hact, heq⟩
      · rw [show (applyOp s (Op.addReviewersToActiveReview rfcId newReviewerIds)) =
            (ReviewService.addReviewersToActiveReview s rfcId newReviewerIds).2 from rfl, heq]
        exact hget
      · obtain ⟨hgetar, _, hacomp⟩ := getActive_some_spec h hact
        obtain ⟨g1, _⟩ := addReviewersGo_spec s newReviewerIds ar
        have hne : id ≠ (addReviewersGo s ar newReviewerIds).2.id := by
          rw [g1]
          intro he
          rw [he] at hget
          have : rr = ar := Option.some_inj.mp (hget.symm.trans hgetar)
          rw [this, hacomp] at hcomp
          exact Bool.noConfusion hcomp
        rw [show (applyOp s (Op.addReviewersToActiveReview rfcId newReviewerIds)) =
            (ReviewService.addReviewersToActiveReview s rfcId newReviewerIds).2 from rfl, heq]
        simp only [InMemoryReviewStorage.update]
        rw [mapGet_mapSet_ne _ _ _ _ hne]
        exact hget

theorem getLast?_decomp {l : List RFC} {x : RFC} (hlast : l.getLast? = some x) :
    l.dropLast ++ [x] = l := by
  have hne : l ≠ [] := by
    intro he
    subst he
    simp at hlast
  have h1 := List.dropLast_append_getLast hne
  have h2 : l.getLast hne = x := by
    have h3 := List.getLast?_eq_getLast l hne
    rw [h3] at hlast
    exact Option.some_inj.mp hlast
  rw [h2] at h1
  exact h1

theorem find?_version_mid {l1 : List RFC} {x : RFC} (l2 : List RFC) {n : Nat}
    (h1 : ∀ r ∈ l1, r.version < n) (hx : x.version = n) :
    (l1 ++ x :: l2).find? (fun v => v.version == n) = some x := by
  induction l1 with
  | nil =>
    simp only [List.nil_append, List.find?]
    rw [show (x.version == n) = true by simp [hx]]
  | cons a rest ih =>
    have ha : (a.version == n) = false := by
      have := h1 a (List.mem_cons_self a rest)
      simp only [beq_eq_false_iff_ne, ne_eq]
      omega
    simp only [List.cons_append, List.find?]
    rw [ha]
    exact ih (fun r hr => h1 r (List.mem_cons_of_mem a hr))

/-- C1: in every reachable state, a successful `updateRFCContent` bumps the
document's version by exactly 1 and the previous version's record (with its
content) stays retrievable via `getByVersion`; a successful `updateRFCStatus`
keeps version and content unchanged, and the record stored under the current
version number is rewritten in place to the post-update record, so the
pre-update snapshot is no longer retrievable. -/
theorem C1_versioning (s : Storage) (h : Reachable s) (rfcId : String) (rfc : RFC)
    (hget : InMemoryRFCStorage.getById s rfcId = some rfc) :
    (∀ content now newV,
      (RFCService.updateRFCContent s rfcId content now).1 = Except.ok newV →
      newV.version = rfc.version + 1 ∧ newV.content = content ∧
      InMemoryRFCStorage.getById
        (RFCService.updateRFCContent s rfcId content now).2 rfcId = some newV ∧
      InMemoryRFCStorage.getByVersion
        (RFCService.updateRFCContent s rfcId content now).2 rfcId rfc.version = some rfc) ∧
    (∀ status now u,
      (RFCService.updateRFCStatus s rfcId status now).1 = Except.ok u →
      u.version = rfc.version ∧ u.content = rfc.content ∧ u.status = status ∧
      InMemoryRFCStorage.getById
        (RFCService.updateRFCStatus s rfcId status now).2 rfcId = some u ∧
      InMemoryRFCStorage.getByVersion
        (RFCService.updateRFCStatus s rfcId status now).2 rfcId rfc.version = some u) := by
  have hInv := reachable_inv h
  have hrfcOk := hInv.rfcOk rfcId
  have hlat : mapGet s.latestVersions rfcId = some rfc := hget
  cases hl : mapGet s.rfcs rfcId with
  | none =>
    exfalso
    simp only [RFCInvAt, hl, hlat] at hrfcOk
  | some l =>
    simp only [RFCInvAt, hl, hlat] at hrfcOk
    obtain ⟨hids, hchain, hlast⟩ := hrfcOk
    have hdec := getLast?_decomp hlast
    have hdl := dropLast_lt_getLast hchain hlast
    constructor
    · intro content now newV hok
      obtain ⟨newV0, hnewV0, heq⟩ :=
        updateRFCContent_step s rfcId content now hl hlat hids hchain hlast
      have h1 : (RFCService.updateRFCContent s rfcId content now).1 = Except.ok newV0 := by
        rw [heq]
      have hnv : newV0 = newV := Except.ok.inj (h1.symm.trans hok)
      subst hnv
      refine ⟨?_, ?_, ?_, ?_⟩
      · rw [hnewV0]
      · rw [hnewV0]
      · rw [heq]
        simp only [InMemoryRFCStorage.getById]
        exact mapGet_mapSet_self _ _ _
      · rw [heq]
        simp only [InMemoryRFCStorage.getByVersion]
        rw [mapGet_mapSet_self, Option.getD_some]
        rw [← hdec, List.append_assoc, List.singleton_append]
        exact find?_version_mid _ hdl rfl
    · intro status now u hok
      by_cases htr : RFCService.validateStatusTransition rfc.status status = true
      · have heq := updateRFCStatus_step s rfcId status now hl hlat hids hchain hlast htr
        have h1 : (RFCService.updateRFCStatus s rfcId status now).1 =
            Except.ok { rfc with status := status, updatedAt := now } := by
          rw [heq]
        have hu : ({ rfc with status := status, updatedAt := now } : RFC) = u :=
          Except.ok.inj (h1.symm.trans hok)
        refine ⟨?_, ?_, ?_, ?_, ?_⟩
        · rw [← hu]
        · rw [← hu]
        · rw [← hu]
        · rw [heq, hu]
          simp only [InMemoryRFCStorage.getById]
          exact mapGet_mapSet_self _ _ _
        · rw [heq, hu]
          simp only [InMemoryRFCStorage.getByVersion]
          rw [mapGet_mapSet_self, Option.getD_some]
          exact find?_version_mid _ hdl (by rw [← hu])
      · exfalso
        simp only [RFCService.updateRFCStatus, InMemoryRFCStorage.getById, hlat] at hok
        rw [if_neg htr] at hok
        exact Except.noConfusion hok

def paramsC1 : CreateRFCParams :=
  { title := "T", content := "hello".toList, author := "a", requestingUser := "u" }

def storageC1 : Storage := applyOp Storage.empty (Op.createRFC "rfc-1" 0 paramsC1)

def rfcC1 : RFC :=
  { id := "rfc-1", version := 1, status := RFCStatus.draft, title := "T",
    content := "hello".toList, author := "a", requestingUser := "u",
    createdAt := 0, updatedAt := 0 }

/-- C1 counterexample: a concrete successful `updateRFCStatus` call that does
NOT increment the version — the returned document still has version 1, the
stored latest version is still 1, and the version-1 snapshot has been
overwritten with the new status, so the pre-update record is gone. -/
theorem C1_counterexample :
    InMemoryRFCStorage.getById storageC1 "rfc-1" = some rfcC1 ∧
    rfcC1.version = 1 ∧
    (RFCService.updateRFCStatus storageC1 "rfc-1" RFCStatus.in_review 1).1 =
      Except.ok { rfcC1 with status := RFCStatus.in_review, updatedAt := 1 } ∧
    ({ rfcC1 with status := RFCStatus.in_review, updatedAt := 1 } : RFC).version = 1 ∧
    InMemoryRFCStorage.getById
      (RFCService.updateRFCStatus storageC1 "rfc-1" RFCStatus.in_review 1).2 "rfc-1" =
      some { rfcC1 with status := RFCStatus.in_review, updatedAt := 1 } ∧
    InMemoryRFCStorage.getByVersion
      (RFCService.updateRFCStatus storageC1 "rfc-1" RFCStatus.in_review 1).2 "rfc-1" 1 =
      some { rfcC1 with status := RFCStatus.in_review, updatedAt := 1 } :=
  ⟨rfl, rfl, rfl, rfl, rfl, rfl⟩

theorem C1_versioning_witness :
    Reachable storageC1 ∧ InMemoryRFCStorage.getById storageC1 "rfc-1" = some rfcC1 ∧
    ((∀ content now newV,
      (RFCService.updateRFCContent storageC1 "rfc-1" content now).1 = Except.ok newV →
      newV.version = rfcC1.version + 1 ∧ newV.content = content ∧
      InMemoryRFCStorage.getById
        (RFCService.updateRFCContent storageC1 "rfc-1" content now).2 "rfc-1" = some newV ∧
      InMemoryRFCStorage.getByVersion
        (RFCService.updateRFCContent storageC1 "rfc-1" content now).2 "rfc-1" rfcC1.version =
        some rfcC1) ∧
    (∀ status now u,
      (RFCService.updateRFCStatus storageC1 "rfc-1" status now).1 = Except.ok u →
      u.version = rfcC1.version ∧ u.content = rfcC1.content ∧ u.status = status ∧
      InMemoryRFCStorage.getById
        (RFCService.updateRFCStatus storageC1 "rfc-1" status now).2 "rfc-1" = some u ∧
      InMemoryRFCStorage.getByVersion
        (RFCService.updateRFCStatus storageC1 "rfc-1" status now).2 "rfc-1" rfcC1.version =
        some u)) := by
  have hr : Reachable storageC1 :=
    Reachable.step (Op.createRFC "rfc-1" 0 paramsC1) Reachable.init ⟨rfl, rfl⟩
  exact ⟨hr, rfl, C1_versioning storageC1 hr "rfc-1" rfcC1 rfl⟩

/-- C4: in every reachable state, for every stored review request,
`getReviewStatus` returns exactly its per-reviewer status map,
`isReviewComplete` returns `ok true` iff every entry of that map is
COMPLETED, and once the completed-at timestamp is set the stored request
(in particular its completed-at) is never changed again by any further
facade operation — so the incomplete-to-complete transition happens at
most once. -/
theorem C4_review_completion (s : Storage) (h : Reachable s) (id : String)
    (rr : ReviewRequest) (hget : InMemoryReviewStorage.getById s id = some rr) :
    ReviewService.getReviewStatus s id = Except.ok rr.reviewStatuses ∧
    (ReviewService.isReviewComplete s id = Except.ok true ↔
      ∀ p ∈ rr.reviewStatuses, p.2 = ReviewStatus.completed) ∧
    (rr.completedAt.isSome = true → ∀ op, FreshOk s op →
      InMemoryReviewStorage.getById (applyOp s op) id = some rr) := by
  have hInv := reachable_inv h
  have hmget : mapGet s.reviews id = some rr := hget
  obtain ⟨_, _, _, _, _, hcpl⟩ := hInv.reviewOk id rr hmget
  refine ⟨?_, ?_, ?_⟩
  · simp only [ReviewService.getReviewStatus, InMemoryReviewStorage.getById, hmget]
  · simp only [ReviewService.isReviewComplete, InMemoryReviewStorage.getById, hmget]
    rw [show (Except.ok rr.completedAt.isSome = (Except.ok true : Except String Bool)) ↔
        (rr.completedAt.isSome = true) from ⟨fun he => Except.ok.inj he, fun he => by rw [he]⟩]
    rw [hcpl]
    exact allCompletedB_eq_true_iff
  · intro hcomp op hf
    exact completed_frozen op hInv hf hmget hcomp

def agOpC4 : Op := Op.createAgent "ag-41" 0 AgentType.backend "Rev" none

def rfcOpC4 : Op := Op.createRFC "rfc-41" 0
  { title := "T", content := "hello".toList, author := "a", requestingUser := "u" }

def reqOpC4 : Op := Op.requestReview
  { rfcId := "rfc-41", requestedBy := "u", reviewerAgentIds := ["ag-41"] } "rev-41" 1

def sC4 : Storage :=
  applyOp (applyOp (applyOp Storage.empty agOpC4) rfcOpC4) reqOpC4

def rrC4 : ReviewRequest :=
  { id := "rev-41", rfcId := "rfc-41", rfcVersion := 1, requestedBy := "u",
    reviewerAgentIds := ["ag-41"], reviewStatuses := [("ag-41", ReviewStatus.pending)],
    createdAt := 1 }

theorem C4_review_completion_witness :
    Reachable sC4 ∧ InMemoryReviewStorage.getById sC4 "rev-41" = some rrC4 ∧
    (ReviewService.getReviewStatus sC4 "rev-41" = Except.ok rrC4.reviewStatuses ∧
    (ReviewService.isReviewComplete sC4 "rev-41" = Except.ok true ↔
      ∀ p ∈ rrC4.reviewStatuses, p.2 = ReviewStatus.completed) ∧
    (rrC4.completedAt.isSome = true → ∀ op, FreshOk sC4 op →
      InMemoryReviewStorage.getById (applyOp sC4 op) "rev-41" = some rrC4)) := by
  have hr : Reachable sC4 :=
    Reachable.step reqOpC4
      (Reachable.step rfcOpC4 (Reachable.step agOpC4 Reachable.init trivial) ⟨rfl, rfl⟩) rfl
  exact ⟨hr, rfl, C4_review_completion sC4 hr "rev-41" rrC4 rfl⟩

theorem requestReview_active_fails (s : Storage) (params : RequestReviewParams)
    (newId : String) (now : Nat) (ar : ReviewRequest)
    (hact : InMemoryReviewStorage.getActiveByRFC s params.rfcId = some ar) :
    (∃ e, (ReviewService.requestReview s params newId now).1 = Except.error e) ∧
    (ReviewService.requestReview s params newId now).2 = s := by
  unfold ReviewService.requestReview
  split
  · exact ⟨⟨_, rfl⟩, rfl⟩
  · split
    · exact ⟨⟨_, rfl⟩, rfl⟩
    · split
      · exact ⟨⟨_, rfl⟩, rfl⟩
      · split
        · exact ⟨⟨_, rfl⟩, rfl⟩
        · split
          · exact ⟨⟨_, rfl⟩, rfl⟩
          · split
            · exact ⟨⟨_, rfl⟩, rfl⟩
            · rename_i hnone
              rw [hnone] at hact
              exact Option.noConfusion hact

/-- C5: in every reachable state, at most one active (completed-at absent)
review request exists per document; while an active request exists every
further `requestReview` for that document fails without touching the
state (and, once the basic parameter validations pass and the document
exists, with exactly the already-has-active-review conflict error); when
no active request exists and all validations pass, `requestReview`
succeeds and creates the new request. -/
theorem C5_unique_active_review (s : Storage) (h : Reachable s) (rfcId : String) :
    (∀ id1 id2 rr1 rr2,
        InMemoryReviewStorage.getById s id1 = some rr1 →
        InMemoryReviewStorage.getById s id2 = some rr2 →
        rr1.rfcId = rfcId → rr2.rfcId = rfcId →
        rr1.completedAt = none → rr2.completedAt = none → id1 = id2) ∧
    (∀ ar, InMemoryReviewStorage.getActiveByRFC s rfcId = some ar →
      ∀ params newId now, RequestReviewParams.rfcId params = rfcId →
        ((∃ e, (ReviewService.requestReview s params newId now).1 = Except.error e) ∧
         (ReviewService.requestReview s params newId now).2 = s) ∧
        (isBlank (RequestReviewParams.rfcId params) = false →
         isBlank params.requestedBy = false →
         params.reviewerAgentIds ≠ [] →
         deadlineNotFuture params.deadline now = false →
         (∃ rfc, InMemoryRFCStorage.getById s rfcId = some rfc) →
         (ReviewService.requestReview s params newId now).1 =
           Except.error ("RFC " ++ rfcId ++ " already has an active review request"))) ∧
    (∀ params newId now rfc, RequestReviewParams.rfcId params = rfcId →
      isBlank (RequestReviewParams.rfcId params) = false →
      isBlank params.requestedBy = false →
      params.reviewerAgentIds ≠ [] →
      deadlineNotFuture params.deadline now = false →
      InMemoryRFCStorage.getById s rfcId = some rfc →
      InMemoryReviewStorage.getActiveByRFC s rfcId = none →
      checkReviewers s params.reviewerAgentIds = none →
      ∃ rr, (ReviewService.requestReview s params newId now).1 = Except.ok rr ∧
        (ReviewService.requestReview s params newId now).2 =
          InMemoryReviewStorage.create s rr) := by
  have hInv := reachable_inv h
  refine ⟨?_, ?_, ?_⟩
  · intro id1 id2 rr1 rr2 h1 h2 hr1 hr2 hc1 hc2
    exact hInv.uniqueActive id1 id2 rr1 rr2 h1 h2 (hr1.trans hr2.symm) hc1 hc2
  · intro ar hact params newId now hpr
    subst hpr
    refine ⟨requestReview_active_fails s params newId now ar hact, ?_⟩
    intro hb1 hb2 hne hd hrfc
    obtain ⟨rfc, hrfc⟩ := hrfc
    unfold ReviewService.requestReview
    rw [if_neg (by simp [hb1]), if_neg (by simp [hb2]), if_neg hne,
      if_neg (by simp [hd])]
    rw [show InMemoryRFCStorage.getById s params.rfcId = some rfc from hrfc]
    rw [show InMemoryReviewStorage.getActiveByRFC s params.rfcId = some ar from hact]
  · intro params newId now rfc hpr hb1 hb2 hne hd hrfc hact hcr
    subst hpr
    unfold ReviewService.requestReview
    rw [if_neg (by simp [hb1]), if_neg (by simp [hb2]), if_neg hne,
      if_neg (by simp [hd])]
    rw [show InMemoryRFCStorage.getById s params.rfcId = some rfc from hrfc]
    rw [show InMemoryReviewStorage.getActiveByRFC s params.rfcId = none from hact]
    rw [hcr]
    exact ⟨_, rfl, rfl⟩

def agOpC5 : Op := Op.createAgent "ag-51" 0 AgentType.backend "Rev" none

def rfcOpC5 : Op := Op.createRFC "rfc-51" 0
  { title := "T", content := "hello".toList, author := "a", requestingUser := "u" }

def reqOpC5 : Op := Op.requestReview
  { rfcId := "rfc-51", requestedBy := "u", reviewerAgentIds := ["ag-51"] } "rev-51" 1

def sC5 : Storage :=
  applyOp (applyOp (applyOp Storage.empty agOpC5) rfcOpC5) reqOpC5

theorem C5_unique_active_review_witness :
    Reachable sC5 ∧
    ((∀ id1 id2 rr1 rr2,
        InMemoryReviewStorage.getById sC5 id1 = some rr1 →
        InMemoryReviewStorage.getById sC5 id2 = some rr2 →
        rr1.rfcId = "rfc-51" → rr2.rfcId = "rfc-51" →
        rr1.completedAt = none → rr2.completedAt = none → id1 = id2) ∧
    (∀ ar, InMemoryReviewStorage.getActiveByRFC sC5 "rfc-51" = some ar →
      ∀ params newId now, RequestReviewParams.rfcId params = "rfc-51" →
        ((∃ e, (ReviewService.requestReview sC5 params newId now).1 = Except.error e) ∧
         (ReviewService.requestReview sC5 params newId now).2 = sC5) ∧
        (isBlank (RequestReviewParams.rfcId params) = false →
         isBlank params.requestedBy = false →
         params.reviewerAgentIds ≠ [] →
         deadlineNotFuture params.deadline now = false →
         (∃ rfc, InMemoryRFCStorage.getById sC5 "rfc-51" = some rfc) →
         (ReviewService.requestReview sC5 params newId now).1 =
           Except.error ("RFC " ++ "rfc-51" ++ " already has an active review request"))) ∧
    (∀ params newId now rfc, RequestReviewParams.rfcId params = "rfc-51" →
      isBlank (RequestReviewParams.rfcId params) = false →
      isBlank params.requestedBy = false →
      params.reviewerAgentIds ≠ [] →
      deadlineNotFuture params.deadline now = false →
      InMemoryRFCStorage.getById sC5 "rfc-51" = some rfc →
      InMemoryReviewStorage.getActiveByRFC sC5 "rfc-51" = none →
      checkReviewers sC5 params.reviewerAgentIds = none →
      ∃ rr, (ReviewService.requestReview sC5 params newId now).1 = Except.ok rr ∧
        (ReviewService.requestReview sC5 params newId now).2 =
          InMemoryReviewStorage.create sC5 rr)) := by
  have hr : Reachable sC5 :=
    Reachable.step reqOpC5
      (Reachable.step rfcOpC5 (Reachable.step agOpC5 Reachable.init trivial) ⟨rfl, rfl⟩) rfl
  exact ⟨hr, C5_unique_active_review sC5 hr "rfc-51"⟩
